import Mathlib

/-!
# Verification of the ChexExplorer core engine

A shallow embedding of the navigation, sorting, copy and search engines of
the ChexExplorer file browser (Rust), together with theorems checking the
natural-language specification against the code.

Conventions of the embedding:
* Filesystem paths are lists of components (`Path := List String`);
  `Path::file_name` is the last component.
* Rust `usize`/`u64` counters become `Nat`; timestamps (`DateTime<Utc>`)
  become `Int` (only their total order is relevant).
* Rust strings are compared byte-wise; for the character data considered
  here (one `Char` per byte) this is the character-wise lexicographic
  comparison `cmpString` below.  `to_lowercase` is modeled by
  `String.toLower` (ASCII case folding).
* Fallible Rust functions returning `Result` become functions returning
  `Except E α`; functions mutating `&mut self` and returning `Result<()>`
  become `State → State × Except E Unit`.
* `Vec::sort_by` is a stable sort with a user comparator; it is modeled by
  the stable insertion sort `sortB` below (any two stable sorts of the
  same total preorder agree).
-/

namespace Chex

/-- A filesystem path, as its list of components. -/
abbrev Path := List String

/-! ## Comparators (embedding of the `Ord` impls used by `sort_by`) -/

/-- Comparison of natural numbers (Rust `usize`/`u64` `cmp`). -/
def cmpNat (a b : Nat) : Ordering :=
  if a < b then .lt else if b < a then .gt else .eq

/-- Comparison of integers (Rust `DateTime` `cmp`, via its timeline order). -/
def cmpInt (a b : Int) : Ordering :=
  if a < b then .lt else if b < a then .gt else .eq

/-- Comparison of characters by code point (byte order of ASCII strings). -/
def cmpChar (a b : Char) : Ordering := cmpNat a.toNat b.toNat

/-- Lexicographic comparison of lists, given an element comparator.  This is
how Rust compares `String`s (byte-wise) and derives `Ord` for sequences. -/
def cmpList (c : α → α → Ordering) : List α → List α → Ordering
  | [], [] => .eq
  | [], _ :: _ => .lt
  | _ :: _, [] => .gt
  | a :: as, b :: bs =>
    match c a b with
    | .eq => cmpList c as bs
    | o => o

/-- Rust `String` comparison (lexicographic). -/
def cmpString (a b : String) : Ordering := cmpList cmpChar a.toList b.toList

/-- Comparison of `Option`s as derived by Rust: `None` sorts first. -/
def cmpOption (c : α → α → Ordering) : Option α → Option α → Ordering
  | none, none => .eq
  | none, some _ => .lt
  | some _, none => .gt
  | some a, some b => c a b

/-! ## `core/file_item.rs`: the `FileItem` data model and `sort_items` -/

/-- `FileType` from `core/file_item.rs`. -/
inductive FileType where
  | Directory
  | RegularFile
  | SymbolicLink
  | Other
deriving DecidableEq, Repr

/-- The custom `Ord for FileType` impl of `core/file_item.rs` (lines
189-198): `Directory` is less than everything else, and all non-directory
kinds compare `Equal`. -/
def cmpFileType : FileType → FileType → Ordering
  | .Directory, .Directory => .eq
  | .Directory, _ => .lt
  | _, .Directory => .gt
  | _, _ => .eq

/-- `FileItem` from `core/file_item.rs`, restricted to the fields the core
engine reads (presentation-only fields — mime type, icon and thumbnail
paths, accessed time, readonly flag, selected flag, cached extension — are
omitted; no specified behavior depends on them). -/
structure FileItem where
  name : String
  path : Path
  file_type : FileType
  size : Nat
  modified : Int
  created : Option Int
  is_hidden : Bool
deriving DecidableEq, Repr

/-- `SortBy` from `core/file_item.rs`. -/
inductive SortBy where
  | Name
  | Size
  | Modified
  | Type
  | Created
deriving DecidableEq, Repr

/-- `SortOrder` from `core/file_item.rs`. -/
inductive SortOrder where
  | Ascending
  | Descending
deriving DecidableEq, Repr

/-- Rust `str::to_lowercase`, character by character (ASCII case
folding; `String.toLower` does the same but is stated over the character
list so that it evaluates by kernel reduction). -/
def strToLower (s : String) : String := String.mk (s.toList.map Char.toLower)

/-- The per-key comparison of `FileItem::sort_items` (the `match sort_by`
body of `core/file_item.rs` lines 161-167). -/
def cmpBy (k : SortBy) (a b : FileItem) : Ordering :=
  match k with
  | .Name => cmpString (strToLower a.name) (strToLower b.name)
  | .Size => cmpNat a.size b.size
  | .Modified => cmpInt a.modified b.modified
  | .Type => cmpFileType a.file_type b.file_type
  | .Created => cmpOption cmpInt a.created b.created

/-- The full comparator passed to `sort_by`: the per-key comparison,
reversed when the order is `Descending` (`comparison.reverse()`). -/
def cmpWith (k : SortBy) (o : SortOrder) (a b : FileItem) : Ordering :=
  match o with
  | .Ascending => cmpBy k a b
  | .Descending => (cmpBy k a b).swap

/-- The "not greater" Boolean relation induced by a comparator; a stable
sort under comparator `c` orders its output by this relation. -/
def cmpLe (c : α → α → Ordering) (a b : α) : Bool :=
  decide (¬ c a b = Ordering.gt)

/-- Stable insertion of `a` in front of the first element it is `le` to. -/
def insertB (le : α → α → Bool) (a : α) : List α → List α
  | [] => [a]
  | b :: l => if le a b then a :: b :: l else b :: insertB le a l

/-- Stable insertion sort; the model of Rust's (stable) `sort_by`/
`sort_by_key`. -/
def sortB (le : α → α → Bool) : List α → List α
  | [] => []
  | a :: l => insertB le a (sortB le l)

/-- The second sort key of `sort_items` (lines 176-179): directories map
to `0`, everything else to `1`. -/
def dirOrd (it : FileItem) : Nat :=
  match it.file_type with
  | .Directory => 0
  | _ => 1

/-- The primary pass of `FileItem::sort_items`: stable sort by the
requested key and direction. -/
def sortPrimary (items : List FileItem) (k : SortBy) (o : SortOrder) : List FileItem :=
  sortB (cmpLe (cmpWith k o)) items

/-- `FileItem::sort_items` (`core/file_item.rs` lines 159-180): sort by
the requested comparator, then stably re-sort by the directories-first
key. -/
def sort_items (items : List FileItem) (k : SortBy) (o : SortOrder) : List FileItem :=
  sortB (fun a b => decide (dirOrd a ≤ dirOrd b)) (sortPrimary items k o)

/-! ## Generic facts about the stable sort model -/

theorem insertB_perm (le : α → α → Bool) (a : α) (l : List α) :
    (insertB le a l).Perm (a :: l) := by
  induction l with
  | nil => simp [insertB]
  | cons b l ih =>
    simp only [insertB]
    split
    · exact List.Perm.refl _
    · exact (ih.cons b).trans (List.Perm.swap a b l)

theorem sortB_perm (le : α → α → Bool) (l : List α) : (sortB le l).Perm l := by
  induction l with
  | nil => exact List.Perm.refl _
  | cons a l ih => exact (insertB_perm le a (sortB le l)).trans (ih.cons a)

theorem insertB_cons_of_le (le : α → α → Bool) (x : α) (l : List α)
    (h : ∀ b, l.head? = some b → le x b = true) :
    insertB le x l = x :: l := by
  cases l with
  | nil => rfl
  | cons b m => simp [insertB, h b rfl]

theorem insertB_append_of_not_le (le : α → α → Bool) (x : α) (l₁ l₂ : List α)
    (h : ∀ a ∈ l₁, le x a = false) :
    insertB le x (l₁ ++ l₂) = l₁ ++ insertB le x l₂ := by
  induction l₁ with
  | nil => rfl
  | cons a l₁ ih =>
    have ha := h a (List.mem_cons_self a l₁)
    simp [insertB, ha, ih fun b hb => h b (List.mem_cons_of_mem a hb)]

/-- A stable sort by a key bounded by `1` is exactly the partition: all
key-`0` elements first, then all key-`1` elements, each group in input
order. -/
theorem sortB_zero_one (key : α → Nat) (hkey : ∀ a, key a ≤ 1) (l : List α) :
    sortB (fun a b => decide (key a ≤ key b)) l
      = l.filter (fun a => decide (key a = 0)) ++ l.filter (fun a => decide (key a ≠ 0)) := by
  induction l with
  | nil => rfl
  | cons x l ih =>
    have hx := hkey x
    simp only [sortB, ih]
    rcases Nat.le_one_iff_eq_zero_or_eq_one.mp hx with h0 | h1
    · rw [insertB_cons_of_le]
      · simp [List.filter_cons, h0]
      · intro b _; simp [h0]
    · rw [insertB_append_of_not_le]
      · rw [insertB_cons_of_le]
        · simp [List.filter_cons, h1]
        · intro b hb
          have hb' : b ∈ l.filter (fun a => decide (key a ≠ 0)) := List.mem_of_mem_head? hb
          have hbne : key b ≠ 0 := by simpa using (List.mem_filter.mp hb').2
          have hble := hkey b
          have : key b = 1 := by omega
          simp [h1, this]
      · intro a ha
        have : key a = 0 := by simpa using (List.mem_filter.mp ha).2
        simp [h1, this]

theorem insertB_pairwise (le : α → α → Bool)
    (htot : ∀ a b, le a b = true ∨ le b a = true)
    (htrans : ∀ a b c, le a b = true → le b c = true → le a c = true)
    (x : α) (l : List α) (h : l.Pairwise (fun a b => le a b = true)) :
    (insertB le x l).Pairwise (fun a b => le a b = true) := by
  induction l with
  | nil => simp [insertB]
  | cons b l ih =>
    rcases List.pairwise_cons.mp h with ⟨hb, hl⟩
    by_cases hxb : le x b = true
    · simp only [insertB, hxb, if_true]
      refine List.pairwise_cons.mpr ⟨?_, h⟩
      intro c hc
      rcases List.mem_cons.mp hc with rfl | hc
      · exact hxb
      · exact htrans x b c hxb (hb c hc)
    · have hbx : le b x = true := (htot x b).resolve_left hxb
      simp only [insertB, hxb, if_false]
      refine List.pairwise_cons.mpr ⟨?_, ih hl⟩
      intro c hc
      have hc' : c ∈ x :: l := (insertB_perm le x l).subset hc
      rcases List.mem_cons.mp hc' with rfl | hc'
      · exact hbx
      · exact hb c hc'

theorem sortB_pairwise (le : α → α → Bool)
    (htot : ∀ a b, le a b = true ∨ le b a = true)
    (htrans : ∀ a b c, le a b = true → le b c = true → le a c = true)
    (l : List α) : (sortB le l).Pairwise (fun a b => le a b = true) := by
  induction l with
  | nil => simp [sortB]
  | cons a l ih => exact insertB_pairwise le htot htrans a (sortB le l) ih

/-- Two sorted permutations of each other are equal, provided the order is
antisymmetric on the elements involved. -/
theorem sorted_perm_eq (le : α → α → Bool) (l₁ : List α) :
    ∀ l₂ : List α, l₁.Perm l₂ →
    l₁.Pairwise (fun a b => le a b = true) →
    l₂.Pairwise (fun a b => le a b = true) →
    (∀ a ∈ l₁, ∀ b ∈ l₁, le a b = true → le b a = true → a = b) →
    l₁ = l₂ := by
  induction l₁ with
  | nil =>
    intro l₂ hp _ _ _
    exact (List.Perm.eq_nil hp.symm).symm
  | cons a t₁ ih =>
    intro l₂ hp hs₁ hs₂ hanti
    cases l₂ with
    | nil => exact absurd (List.Perm.eq_nil hp) (by simp)
    | cons b t₂ =>
      by_cases hab : a = b
      · subst hab
        have ht := ih t₂ hp.cons_inv (List.pairwise_cons.mp hs₁).2
          (List.pairwise_cons.mp hs₂).2
          (fun x hx y hy => hanti x (List.mem_cons_of_mem a hx) y (List.mem_cons_of_mem a hy))
        rw [ht]
      · exfalso
        have hamem : a ∈ b :: t₂ := hp.subset (List.mem_cons_self a t₁)
        have hat₂ : a ∈ t₂ := by
          rcases List.mem_cons.mp hamem with h | h
          · exact absurd h hab
          · exact h
        have hbmem : b ∈ a :: t₁ := hp.symm.subset (List.mem_cons_self b t₂)
        have hbt₁ : b ∈ t₁ := by
          rcases List.mem_cons.mp hbmem with h | h
          · exact absurd h.symm hab
          · exact h
        have hle_ab : le a b = true := (List.pairwise_cons.mp hs₁).1 b hbt₁
        have hle_ba : le b a = true := (List.pairwise_cons.mp hs₂).1 a hat₂
        exact hab (hanti a (List.mem_cons_self a t₁) b (List.mem_cons_of_mem a hbt₁)
          hle_ab hle_ba)

/-! ## Laws of the comparators -/

theorem cmpNat_gt_iff (a b : Nat) : cmpNat a b = .gt ↔ b < a := by
  unfold cmpNat
  by_cases h1 : a < b
  · simp [h1]; omega
  · by_cases h2 : b < a <;> simp [h1, h2]

theorem cmpNat_lt_iff (a b : Nat) : cmpNat a b = .lt ↔ a < b := by
  unfold cmpNat
  by_cases h1 : a < b
  · simp [h1]
  · by_cases h2 : b < a <;> simp [h1, h2]

theorem cmpNat_eq_iff (a b : Nat) : cmpNat a b = .eq ↔ a = b := by
  unfold cmpNat
  by_cases h1 : a < b
  · simp [h1]; omega
  · by_cases h2 : b < a <;> simp [h1, h2] <;> omega

theorem cmpInt_gt_iff (a b : Int) : cmpInt a b = .gt ↔ b < a := by
  unfold cmpInt
  by_cases h1 : a < b
  · simp [h1]; omega
  · by_cases h2 : b < a <;> simp [h1, h2]

theorem cmpInt_lt_iff (a b : Int) : cmpInt a b = .lt ↔ a < b := by
  unfold cmpInt
  by_cases h1 : a < b
  · simp [h1]
  · by_cases h2 : b < a <;> simp [h1, h2]

theorem cmpInt_eq_iff (a b : Int) : cmpInt a b = .eq ↔ a = b := by
  unfold cmpInt
  by_cases h1 : a < b
  · simp [h1]; omega
  · by_cases h2 : b < a <;> simp [h1, h2] <;> omega

/-- `c` reports the mirrored comparison when its arguments are flipped. -/
def CmpConsistent (c : α → α → Ordering) : Prop :=
  ∀ a b, c b a = (c a b).swap

/-- `c` reports `eq` exactly on equal arguments. -/
def CmpEqIff (c : α → α → Ordering) : Prop :=
  ∀ a b, c a b = .eq ↔ a = b

/-- Strict transitivity of `c`. -/
def CmpLtTrans (c : α → α → Ordering) : Prop :=
  ∀ a b d, c a b = .lt → c b d = .lt → c a d = .lt

/-- Transitivity of the non-strict relation `c · · ≠ gt`. -/
def CmpLeTrans (c : α → α → Ordering) : Prop :=
  ∀ a b d, c a b ≠ .gt → c b d ≠ .gt → c a d ≠ .gt

theorem cmpLeTrans_of (c : α → α → Ordering) (heq : CmpEqIff c) (hlt : CmpLtTrans c) :
    CmpLeTrans c := by
  intro a b d hab hbd
  have hab' : c a b = .lt ∨ c a b = .eq := by cases h : c a b <;> simp_all
  have hbd' : c b d = .lt ∨ c b d = .eq := by cases h : c b d <;> simp_all
  rcases hab' with hab' | hab'
  · rcases hbd' with hbd' | hbd'
    · simp [hlt a b d hab' hbd']
    · rw [(heq b d).mp hbd'] at hab'; simp [hab']
  · rw [(heq a b).mp hab']
    rcases hbd' with hbd' | hbd' <;> simp_all

theorem cmpNat_consistent : CmpConsistent cmpNat := by
  intro a b
  unfold cmpNat
  rcases Nat.lt_trichotomy a b with h | h | h
  · simp [h, Nat.not_lt_of_gt h, Ordering.swap]
  · simp [h, Nat.lt_irrefl, Ordering.swap]
  · simp [h, Nat.not_lt_of_gt h, Ordering.swap]

theorem cmpNat_eqIff : CmpEqIff cmpNat := cmpNat_eq_iff

theorem cmpNat_ltTrans : CmpLtTrans cmpNat := by
  intro a b d hab hbd
  rw [cmpNat_lt_iff] at *
  omega

theorem cmpInt_consistent : CmpConsistent cmpInt := by
  intro a b
  unfold cmpInt
  rcases Int.lt_trichotomy a b with h | h | h
  · have h2 : ¬ b < a := by omega
    simp [h, h2, Ordering.swap]
  · subst h
    have h2 : ¬ a < a := by omega
    simp [h2, Ordering.swap]
  · have h2 : ¬ a < b := by omega
    simp [h, h2, Ordering.swap]

theorem cmpInt_eqIff : CmpEqIff cmpInt := cmpInt_eq_iff

theorem cmpInt_ltTrans : CmpLtTrans cmpInt := by
  intro a b d hab hbd
  rw [cmpInt_lt_iff] at *
  omega

theorem cmpChar_consistent : CmpConsistent cmpChar := by
  intro a b; exact cmpNat_consistent a.toNat b.toNat

theorem cmpChar_eqIff : CmpEqIff cmpChar := by
  intro a b
  rw [cmpChar, cmpNat_eq_iff]
  constructor
  · intro h
    exact (StrictMono.injective (f := Char.toNat) fun _ _ hx => hx) h
  · intro h; rw [h]

theorem cmpChar_ltTrans : CmpLtTrans cmpChar := by
  intro a b d hab hbd
  exact cmpNat_ltTrans _ _ _ hab hbd

theorem cmpList_consistent (c : α → α → Ordering) (hc : CmpConsistent c) :
    CmpConsistent (cmpList c) := by
  intro as bs
  induction as generalizing bs with
  | nil => cases bs <;> simp [cmpList, Ordering.swap]
  | cons a as ih =>
    cases bs with
    | nil => simp [cmpList, Ordering.swap]
    | cons b bs =>
      simp only [cmpList, hc a b]
      cases h : c a b <;> simp [Ordering.swap, ih bs]

theorem cmpList_eqIff (c : α → α → Ordering) (hc : CmpEqIff c) :
    CmpEqIff (cmpList c) := by
  intro as bs
  induction as generalizing bs with
  | nil => cases bs <;> simp [cmpList]
  | cons a as ih =>
    cases bs with
    | nil => simp [cmpList]
    | cons b bs =>
      simp only [cmpList]
      cases h : c a b with
      | eq =>
        have hab : a = b := (hc a b).mp h
        simp [hab, ih bs]
      | lt =>
        have : ¬ a = b := fun he => by rw [he] at h; have := (hc b b).mpr rfl; simp_all
        simp_all
      | gt =>
        have : ¬ a = b := fun he => by rw [he] at h; have := (hc b b).mpr rfl; simp_all
        simp_all

theorem cmpList_ltTrans (c : α → α → Ordering) (hce : CmpEqIff c) (hcl : CmpLtTrans c) :
    CmpLtTrans (cmpList c) := by
  intro as bs ds hab hbd
  induction as generalizing bs ds with
  | nil =>
    cases bs with
    | nil => simp [cmpList] at hab
    | cons b bs => cases ds with
      | nil => simp [cmpList] at hbd
      | cons d ds => simp [cmpList]
  | cons a as ih =>
    cases bs with
    | nil => simp [cmpList] at hab
    | cons b bs =>
      cases ds with
      | nil => simp [cmpList] at hbd
      | cons d ds =>
        simp only [cmpList] at hab hbd ⊢
        cases hab' : c a b with
        | gt => rw [hab'] at hab; simp at hab
        | lt =>
          rw [hab'] at hab
          cases hbd' : c b d with
          | gt => rw [hbd'] at hbd; simp at hbd
          | lt => simp [hcl a b d hab' hbd']
          | eq =>
            have : b = d := (hce b d).mp hbd'
            subst this
            simp [hab']
        | eq =>
          have : a = b := (hce a b).mp hab'
          subst this
          rw [hab'] at hab
          cases hbd' : c a d with
          | gt => rw [hbd'] at hbd; simp at hbd
          | lt => simp [hbd']
          | eq =>
            rw [hbd'] at hbd
            have := ih bs ds hab hbd
            simp [hbd', this]

theorem cmpOption_consistent (c : α → α → Ordering) (hc : CmpConsistent c) :
    CmpConsistent (cmpOption c) := by
  intro a b
  cases a <;> cases b
  · rfl
  · rfl
  · rfl
  · exact hc _ _

theorem cmpOption_eqIff (c : α → α → Ordering) (hc : CmpEqIff c) :
    CmpEqIff (cmpOption c) := by
  intro a b
  cases a with
  | none => cases b <;> simp [cmpOption]
  | some x =>
    cases b with
    | none => simp [cmpOption]
    | some y => simpa [cmpOption] using hc x y

theorem cmpOption_ltTrans (c : α → α → Ordering) (_hce : CmpEqIff c) (hcl : CmpLtTrans c) :
    CmpLtTrans (cmpOption c) := by
  intro a b d hab hbd
  cases a <;> cases b <;> cases d <;> simp_all [cmpOption]
  exact hcl _ _ _ hab hbd

theorem cmpFileType_consistent : CmpConsistent cmpFileType := by
  intro a b; cases a <;> cases b <;> rfl

theorem cmpFileType_leTrans : CmpLeTrans cmpFileType := by
  intro a b d hab hbd
  cases a <;> cases b <;> cases d <;> simp_all [cmpFileType]

theorem cmpString_consistent : CmpConsistent cmpString := by
  intro a b; exact cmpList_consistent cmpChar cmpChar_consistent a.toList b.toList

theorem cmpString_leTrans : CmpLeTrans cmpString := by
  intro a b d
  exact cmpLeTrans_of (cmpList cmpChar)
    (cmpList_eqIff cmpChar cmpChar_eqIff)
    (cmpList_ltTrans cmpChar cmpChar_eqIff cmpChar_ltTrans) a.toList b.toList d.toList

theorem cmpBy_consistent (k : SortBy) : ∀ a b, cmpBy k b a = (cmpBy k a b).swap := by
  intro a b
  cases k
  · exact cmpString_consistent _ _
  · exact cmpNat_consistent _ _
  · exact cmpInt_consistent _ _
  · exact cmpFileType_consistent _ _
  · exact cmpOption_consistent cmpInt cmpInt_consistent _ _

theorem cmpBy_leTrans (k : SortBy) :
    ∀ a b d, cmpBy k a b ≠ .gt → cmpBy k b d ≠ .gt → cmpBy k a d ≠ .gt := by
  intro a b d
  cases k
  · exact cmpString_leTrans _ _ _
  · exact cmpLeTrans_of cmpNat cmpNat_eqIff cmpNat_ltTrans _ _ _
  · exact cmpLeTrans_of cmpInt cmpInt_eqIff cmpInt_ltTrans _ _ _
  · exact cmpFileType_leTrans _ _ _
  · exact cmpLeTrans_of (cmpOption cmpInt)
      (cmpOption_eqIff cmpInt cmpInt_eqIff)
      (cmpOption_ltTrans cmpInt cmpInt_eqIff cmpInt_ltTrans) _ _ _

theorem swap_ne_gt (o : Ordering) : o.swap ≠ .gt ↔ o ≠ .lt := by
  cases o <;> simp [Ordering.swap]

theorem ordering_eq_of_ne_lt_ne_gt (o : Ordering) (h1 : o ≠ .lt) (h2 : o ≠ .gt) :
    o = .eq := by
  cases o <;> simp_all

theorem cmpWith_consistent (k : SortBy) (o : SortOrder) :
    ∀ a b, cmpWith k o b a = (cmpWith k o a b).swap := by
  intro a b
  cases o with
  | Ascending => exact cmpBy_consistent k a b
  | Descending => simp [cmpWith, cmpBy_consistent k a b, Ordering.swap_swap]

theorem cmpWith_leTrans (k : SortBy) (o : SortOrder) :
    ∀ a b d, cmpWith k o a b ≠ .gt → cmpWith k o b d ≠ .gt → cmpWith k o a d ≠ .gt := by
  intro a b d hab hbd
  cases o with
  | Ascending => exact cmpBy_leTrans k a b d hab hbd
  | Descending =>
    have key : ∀ x y : FileItem, cmpBy k y x ≠ .gt ↔ cmpBy k x y ≠ .lt := by
      intro x y
      rw [cmpBy_consistent k x y]
      exact swap_ne_gt _
    simp only [cmpWith] at hab hbd ⊢
    rw [swap_ne_gt] at hab hbd ⊢
    rw [← key a d]
    exact cmpBy_leTrans k d b a ((key b d).mpr hbd) ((key a b).mpr hab)

theorem cmpLe_total (c : α → α → Ordering) (hc : CmpConsistent c) :
    ∀ a b, cmpLe c a b = true ∨ cmpLe c b a = true := by
  intro a b
  unfold cmpLe
  by_cases h : c a b = .gt
  · right
    rw [hc a b, h]
    simp [Ordering.swap]
  · left; simp [h]

theorem cmpLe_trans (c : α → α → Ordering) (hc : CmpLeTrans c) :
    ∀ a b d, cmpLe c a b = true → cmpLe c b d = true → cmpLe c a d = true := by
  intro a b d hab hbd
  unfold cmpLe at *
  simp only [decide_eq_true_eq] at *
  exact hc a b d hab hbd

/-! ## Sorting: directories first, reversal, case insensitivity -/

theorem dirOrd_le_one (a : FileItem) : dirOrd a ≤ 1 := by
  unfold dirOrd; split <;> omega

theorem dirOrd_eq_zero_iff (a : FileItem) : dirOrd a = 0 ↔ a.file_type = .Directory := by
  unfold dirOrd
  cases h : a.file_type <;> simp_all

/-- `sort_items` is the directories-first partition of the primary sort. -/
theorem sort_items_partition (l : List FileItem) (k : SortBy) (o : SortOrder) :
    sort_items l k o
      = (sortPrimary l k o).filter (fun a => decide (dirOrd a = 0))
        ++ (sortPrimary l k o).filter (fun a => decide (dirOrd a ≠ 0)) := by
  simp only [sort_items]
  exact sortB_zero_one dirOrd dirOrd_le_one (sortPrimary l k o)

theorem sort_items_filter_dirs (l : List FileItem) (k : SortBy) (o : SortOrder) :
    (sort_items l k o).filter (fun a => decide (dirOrd a = 0))
      = (sortPrimary l k o).filter (fun a => decide (dirOrd a = 0)) := by
  rw [sort_items_partition, List.filter_append]
  have h1 : ((sortPrimary l k o).filter (fun a => decide (dirOrd a = 0))).filter
      (fun a => decide (dirOrd a = 0))
      = (sortPrimary l k o).filter (fun a => decide (dirOrd a = 0)) := by
    apply List.filter_eq_self.mpr
    intro a ha
    exact (List.mem_filter.mp ha).2
  have h2 : ((sortPrimary l k o).filter (fun a => decide (dirOrd a ≠ 0))).filter
      (fun a => decide (dirOrd a = 0)) = [] := by
    apply List.filter_eq_nil_iff.mpr
    intro a ha
    have := (List.mem_filter.mp ha).2
    simp_all
  rw [h1, h2, List.append_nil]

theorem sort_items_filter_nondirs (l : List FileItem) (k : SortBy) (o : SortOrder) :
    (sort_items l k o).filter (fun a => decide (dirOrd a ≠ 0))
      = (sortPrimary l k o).filter (fun a => decide (dirOrd a ≠ 0)) := by
  rw [sort_items_partition, List.filter_append]
  have h1 : ((sortPrimary l k o).filter (fun a => decide (dirOrd a = 0))).filter
      (fun a => decide (dirOrd a ≠ 0)) = [] := by
    apply List.filter_eq_nil_iff.mpr
    intro a ha
    have := (List.mem_filter.mp ha).2
    simp_all
  have h2 : ((sortPrimary l k o).filter (fun a => decide (dirOrd a ≠ 0))).filter
      (fun a => decide (dirOrd a ≠ 0))
      = (sortPrimary l k o).filter (fun a => decide (dirOrd a ≠ 0)) := by
    apply List.filter_eq_self.mpr
    intro a ha
    exact (List.mem_filter.mp ha).2
  rw [h1, h2, List.nil_append]

/-- C4: for every item list, sort key and direction, `sort_items` places
every `Directory` entry before every non-directory entry, and each group
keeps the relative order produced by the primary key sort (it is exactly
the primary sort's directory entries followed by its non-directory
entries). -/
theorem sort_items_directories_first (items : List FileItem) (k : SortBy) (o : SortOrder) :
    sort_items items k o
      = (sortPrimary items k o).filter (fun a => decide (dirOrd a = 0))
        ++ (sortPrimary items k o).filter (fun a => decide (dirOrd a ≠ 0))
    ∧ (sort_items items k o).Pairwise
        (fun a b => b.file_type = .Directory → a.file_type = .Directory) := by
  refine ⟨sort_items_partition items k o, ?_⟩
  rw [sort_items_partition]
  rw [List.pairwise_append]
  refine ⟨?_, ?_, ?_⟩
  · apply List.pairwise_of_forall_mem_list
    intro a ha _ _ _
    have := (List.mem_filter.mp ha).2
    have h0 : dirOrd a = 0 := by simpa using this
    exact (dirOrd_eq_zero_iff a).mp h0
  · apply List.pairwise_of_forall_mem_list
    intro _ _ b hb hdir
    have := (List.mem_filter.mp hb).2
    have hb0 : ¬ dirOrd b = 0 := by simpa using this
    exact absurd ((dirOrd_eq_zero_iff b).mpr hdir) hb0
  · intro a ha b _ _
    have := (List.mem_filter.mp ha).2
    have h0 : dirOrd a = 0 := by simpa using this
    exact (dirOrd_eq_zero_iff a).mp h0

theorem swap_ne_lt (o : Ordering) : o.swap ≠ .lt ↔ o ≠ .gt := by
  cases o <;> simp [Ordering.swap]

theorem cmpLe_eq_true_iff (c : α → α → Ordering) (a b : α) :
    cmpLe c a b = true ↔ c a b ≠ .gt := by
  unfold cmpLe
  simp

theorem swapped_consistent (c : α → α → Ordering) (hc : CmpConsistent c) :
    CmpConsistent (fun a b => (c a b).swap) := by
  intro a b
  simp only [hc a b, Ordering.swap_swap]

theorem swapped_leTrans (c : α → α → Ordering) (hcons : CmpConsistent c)
    (htrans : CmpLeTrans c) : CmpLeTrans (fun a b => (c a b).swap) := by
  intro a b d hab hbd
  simp only [swap_ne_gt] at hab hbd ⊢
  have key : ∀ x y : α, c y x ≠ .gt ↔ c x y ≠ .lt := by
    intro x y
    rw [hcons x y]
    exact swap_ne_gt _
  rw [← key a d]
  exact htrans d b a ((key b d).mpr hbd) ((key a b).mpr hab)

/-- A stable sort under the mirrored comparator produces, inside any
filtered group, the reverse of the stable sort under the comparator
itself — provided the comparator has no ties on the list. -/
theorem filter_sortB_reverse (c : α → α → Ordering)
    (hcons : CmpConsistent c) (htrans : CmpLeTrans c)
    (p : α → Bool) (l : List α)
    (hanti : ∀ a ∈ l, ∀ b ∈ l, c a b = .eq → a = b) :
    (sortB (cmpLe (fun a b => (c a b).swap)) l).filter p
      = ((sortB (cmpLe c) l).filter p).reverse := by
  have hA : (sortB (cmpLe c) l).Pairwise (fun a b => cmpLe c a b = true) :=
    sortB_pairwise _ (cmpLe_total c hcons) (cmpLe_trans c htrans) l
  have hD : (sortB (cmpLe (fun a b => (c a b).swap)) l).Pairwise
      (fun a b => cmpLe (fun a b => (c a b).swap) a b = true) :=
    sortB_pairwise _ (cmpLe_total _ (swapped_consistent c hcons))
      (cmpLe_trans _ (swapped_leTrans c hcons htrans)) l
  have hfA := hA.sublist (List.filter_sublist (p := p) _)
  have hfD := hD.sublist (List.filter_sublist (p := p) _)
  have hrevA : (((sortB (cmpLe c) l).filter p).reverse).Pairwise
      (fun a b => cmpLe (fun a b => (c a b).swap) a b = true) := by
    rw [List.pairwise_reverse]
    refine hfA.imp ?_
    intro a b hab
    rw [cmpLe_eq_true_iff] at hab ⊢
    rw [swap_ne_gt, hcons a b, swap_ne_lt]
    exact hab
  apply sorted_perm_eq _ _ _ ?_ hfD hrevA ?_
  · have p1 : ((sortB (cmpLe (fun a b => (c a b).swap)) l).filter p).Perm (l.filter p) :=
      (sortB_perm _ l).filter p
    have p2 : ((sortB (cmpLe c) l).filter p).Perm (l.filter p) :=
      (sortB_perm _ l).filter p
    exact p1.trans ((List.reverse_perm _).trans p2).symm
  · intro a hamem b hbmem hab hba
    have ha : a ∈ l := (sortB_perm _ l).subset (List.mem_of_mem_filter hamem)
    have hb : b ∈ l := (sortB_perm _ l).subset (List.mem_of_mem_filter hbmem)
    rw [cmpLe_eq_true_iff] at hab hba
    rw [swap_ne_gt] at hab hba
    have h2 : c a b ≠ .gt := by
      rw [← swap_ne_lt, ← hcons a b]
      exact hba
    exact hanti a ha b hb (ordering_eq_of_ne_lt_ne_gt _ hab h2)

/-- The `Descending` comparator is the mirrored `Ascending` comparator. -/
theorem cmpWith_descending (k : SortBy) :
    cmpWith k .Descending = fun a b => (cmpBy k a b).swap := rfl

theorem cmpWith_ascending (k : SortBy) : cmpWith k .Ascending = cmpBy k := rfl

/-- C8 (amended): (a) the `Name` comparison is case-insensitive — items
whose names agree up to case compare `eq`; and (b) provided the chosen key
has no ties among the entries of the list, the `Descending` result is,
within the directory group and within the non-directory group, the
element-for-element reverse of the `Ascending` result.  (With ties —
which every key admits, e.g. names differing only by case under `Name` —
stability keeps tied entries in input order in both directions, so the
groups are not reversals of each other; see the counterexample.) -/
theorem sort_items_reverse_and_case_insensitive (l : List FileItem) (k : SortBy)
    (hNoTie : ∀ a ∈ l, ∀ b ∈ l, cmpBy k a b = .eq → a = b) :
    ((sort_items l k .Descending).filter (fun a => decide (dirOrd a = 0))
        = ((sort_items l k .Ascending).filter (fun a => decide (dirOrd a = 0))).reverse
      ∧ (sort_items l k .Descending).filter (fun a => decide (dirOrd a ≠ 0))
        = ((sort_items l k .Ascending).filter (fun a => decide (dirOrd a ≠ 0))).reverse)
    ∧ (∀ a b : FileItem, strToLower a.name = strToLower b.name → cmpBy .Name a b = .eq) := by
  constructor
  · constructor
    · rw [sort_items_filter_dirs, sort_items_filter_dirs]
      simp only [sortPrimary, cmpWith_descending, cmpWith_ascending]
      exact filter_sortB_reverse (cmpBy k) (cmpBy_consistent k) (cmpBy_leTrans k) _ l hNoTie
    · rw [sort_items_filter_nondirs, sort_items_filter_nondirs]
      simp only [sortPrimary, cmpWith_descending, cmpWith_ascending]
      exact filter_sortB_reverse (cmpBy k) (cmpBy_consistent k) (cmpBy_leTrans k) _ l hNoTie
  · intro a b h
    simp only [cmpBy, h]
    exact (cmpList_eqIff cmpChar cmpChar_eqIff _ _).mpr rfl

/-- Two regular files whose names differ only by case: a tie under the
`Name` key. -/
def itemLower : FileItem := ⟨"b", ["b"], .RegularFile, 10, 0, none, false⟩

/-- See `itemLower`. -/
def itemUpper : FileItem := ⟨"B", ["B"], .RegularFile, 20, 5, some 1, false⟩

/-- C8 (counterexample): with two regular files named `"b"` and `"B"`
(equal under the case-insensitive `Name` comparison), the stable sort
leaves them in input order for both directions, so the `Descending`
result is not the element-wise reversal of the `Ascending` result within
the groups, as the claim requires. -/
theorem sort_items_descending_not_reverse_cex :
    ¬ ((sort_items [itemLower, itemUpper] .Name .Descending).filter
          (fun a => decide (dirOrd a = 0))
        = ((sort_items [itemLower, itemUpper] .Name .Ascending).filter
            (fun a => decide (dirOrd a = 0))).reverse
      ∧ (sort_items [itemLower, itemUpper] .Name .Descending).filter
          (fun a => decide (dirOrd a ≠ 0))
        = ((sort_items [itemLower, itemUpper] .Name .Ascending).filter
            (fun a => decide (dirOrd a ≠ 0))).reverse) := by
  decide

/-- A regular file and a directory with distinct names: no ties under the
`Name` key. -/
def itemFileA : FileItem := ⟨"a.txt", ["a.txt"], .RegularFile, 3, 2, none, false⟩

/-- See `itemFileA`. -/
def itemDirD : FileItem := ⟨"d", ["d"], .Directory, 0, 1, none, false⟩

/-- Witness for the amended C8 theorem at a concrete tie-free list. -/
theorem sort_items_reverse_witness :
    ((sort_items [itemFileA, itemDirD] .Name .Descending).filter
        (fun a => decide (dirOrd a = 0))
      = ((sort_items [itemFileA, itemDirD] .Name .Ascending).filter
          (fun a => decide (dirOrd a = 0))).reverse
    ∧ (sort_items [itemFileA, itemDirD] .Name .Descending).filter
        (fun a => decide (dirOrd a ≠ 0))
      = ((sort_items [itemFileA, itemDirD] .Name .Ascending).filter
          (fun a => decide (dirOrd a ≠ 0))).reverse)
    ∧ cmpBy .Name itemLower itemUpper = .eq := by
  have h := sort_items_reverse_and_case_insensitive [itemFileA, itemDirD] .Name (by decide)
  exact ⟨h.1, h.2 itemLower itemUpper (by decide)⟩


/-! ## `core/file_manager.rs`: navigation state and history

The filesystem the manager reads is abstracted as `NavFs`: the existence
and is-directory tests, the result of `std::fs::read_dir` plus the
per-entry `FileItem::from_path` stats, and whether installing a `notify`
watcher on a path succeeds.  Functions taking `&mut self` and returning
`anyhow::Result<()>` become `FMState → FMState × Except NavError Unit`,
so the state reached at an early `?`-return is preserved, exactly as the
mutations already applied to `self` are in Rust. -/

/-- One element yielded by the `read_dir` loop of `refresh_items`:
the iterator itself can fail (`entry?`, fatal), the per-entry stat
(`FileItem::from_path`) can fail (logged and skipped), or an item is
produced. -/
inductive EntryRes where
  | readErr
  | statErr
  | item (it : FileItem)
deriving DecidableEq, Repr

/-- The filesystem as seen by `FileManager`. -/
structure NavFs where
  pathExists : Path → Bool
  isDirPath : Path → Bool
  readDir : Path → Option (List EntryRes)
  watchOk : Path → Bool

/-- Errors of the navigation engine (`anyhow` messages in the source,
distinguished here structurally). -/
inductive NavError where
  | notFound
  | notADirectory
  | ioError
  | watchError
deriving DecidableEq, Repr

/-- The fields of `FileManager` (minus the clipboard and the live watcher
handle/channel, which no claim reads; `watcher` keeps the watched path
when a watcher is installed). -/
structure FMState where
  current_path : Path
  items : List FileItem
  selected_items : List Nat
  history : List Path
  history_index : Nat
  sort_by : SortBy
  sort_order : SortOrder
  show_hidden : Bool
  watcher : Option Path
deriving DecidableEq, Repr

/-- `FileManager::new` (history starts at the home directory). -/
def FileManager.new (home : Path) : FMState :=
  { current_path := home
    items := []
    selected_items := []
    history := [home]
    history_index := 0
    sort_by := .Name
    sort_order := .Ascending
    show_hidden := false
    watcher := none }

/-- The `for entry in entries` loop of `refresh_items`: an iterator error
aborts with the error; a failed stat is logged and skipped; items are kept
subject to the hidden-file filter. -/
def collectItems (show_hidden : Bool) : List EntryRes → Except NavError (List FileItem)
  | [] => .ok []
  | .readErr :: _ => .error .ioError
  | .statErr :: rest => collectItems show_hidden rest
  | .item it :: rest =>
    match collectItems show_hidden rest with
    | .error e => .error e
    | .ok items => .ok (if show_hidden || !it.is_hidden then it :: items else items)

/-- `FileManager::refresh_items` (lines 82-129): list the current
directory, filter hidden entries, sort, replace the item snapshot and
clear the selection.  On failure the state is unchanged (the snapshot is
built in a local before being stored). -/
def refresh_items (fs : NavFs) (s : FMState) : FMState × Except NavError Unit :=
  match fs.readDir s.current_path with
  | none => (s, .error .ioError)
  | some entries =>
    match collectItems s.show_hidden entries with
    | .error e => (s, .error e)
    | .ok items =>
      ({ s with items := sort_items items s.sort_by s.sort_order, selected_items := [] },
        .ok ())

/-- `FileManager::setup_watcher` (lines 264-277): install a watcher on
`path`, replacing the previous one; on failure the old watcher field is
left as it was. -/
def setup_watcher (fs : NavFs) (s : FMState) (path : Path) : FMState × Except NavError Unit :=
  if fs.watchOk path then ({ s with watcher := some path }, .ok ())
  else (s, .error .watchError)

/-- `FileManager::navigate_to` (lines 43-80): existence and directory
checks, then current-path update, history truncation and push, snapshot
refresh, and watcher installation, each `?`-propagating its error with
the earlier mutations retained. -/
def navigate_to (fs : NavFs) (s : FMState) (path : Path) : FMState × Except NavError Unit :=
  if fs.pathExists path = false then (s, .error .notFound)
  else if fs.isDirPath path = false then (s, .error .notADirectory)
  else
    let s1 := { s with current_path := path }
    let h := s1.history.take (s1.history_index + 1)
    let s2 :=
      if h.getLast? = some path then { s1 with history := h }
      else { s1 with history := h ++ [path], history_index := (h ++ [path]).length - 1 }
    match refresh_items fs s2 with
    | (s3, .error e) => (s3, .error e)
    | (s3, .ok _) => setup_watcher fs s3 path

/-- `FileManager::go_back` (lines 181-202): if the cursor is positive,
decrement it, set the current path to `history[cursor]` and refresh;
otherwise do nothing and succeed. -/
def go_back (fs : NavFs) (s : FMState) : FMState × Except NavError Unit :=
  if s.history_index > 0 then
    let i := s.history_index - 1
    refresh_items fs { s with history_index := i, current_path := s.history.getD i [] }
  else (s, .ok ())

/-- `FileManager::go_forward` (lines 204-225): if the cursor is before
the last history entry, increment it, set the current path to
`history[cursor]` and refresh; otherwise do nothing and succeed. -/
def go_forward (fs : NavFs) (s : FMState) : FMState × Except NavError Unit :=
  if s.history_index < s.history.length - 1 then
    let i := s.history_index + 1
    refresh_items fs { s with history_index := i, current_path := s.history.getD i [] }
  else (s, .ok ())

/-- The history invariant maintained by every reachable `FileManager`
state: the cursor is inside the (nonempty) history. -/
abbrev Inv (s : FMState) : Prop := s.history_index < s.history.length

/-- A directory on which every step of `navigate_to` succeeds: it exists,
is a directory, lists without an iterator error, and accepts a watcher. -/
def goodNavB (fs : NavFs) (p : Path) : Bool :=
  fs.pathExists p && fs.isDirPath p &&
    (match fs.readDir p with
      | some es => es.all (fun e => match e with | .readErr => false | _ => true)
      | none => false) &&
    fs.watchOk p



/-- The history produced by a successful `navigate_to` from state `s` to
path `p`: truncate strictly after the cursor, then append `p` unless it
already ends the truncated history. -/
def navHistory (s : FMState) (p : Path) : List Path :=
  if (s.history.take (s.history_index + 1)).getLast? = some p
  then s.history.take (s.history_index + 1)
  else s.history.take (s.history_index + 1) ++ [p]

theorem navHistory_ne_nil (s : FMState) (p : Path) : navHistory s p ≠ [] := by
  unfold navHistory
  split
  · intro hnil
    simp_all
  · simp

theorem navHistory_getLast (s : FMState) (p : Path) :
    (navHistory s p).getLast? = some p := by
  unfold navHistory
  split
  · assumption
  · exact List.getLast?_concat _

theorem collectItems_ok (sh : Bool) (es : List EntryRes)
    (hok : es.all (fun e => match e with | .readErr => false | _ => true) = true) :
    ∃ its, collectItems sh es = .ok its := by
  induction es with
  | nil => exact ⟨[], rfl⟩
  | cons e rest ih =>
    simp only [List.all_cons, Bool.and_eq_true] at hok
    obtain ⟨its, hits⟩ := ih hok.2
    cases e with
    | readErr => simp at hok
    | statErr => exact ⟨its, by simpa [collectItems] using hits⟩
    | item it =>
      refine ⟨if sh || !it.is_hidden then it :: its else its, ?_⟩
      simp only [collectItems, hits]

theorem goodNav_spec (fs : NavFs) (p : Path) (hg : goodNavB fs p = true) :
    fs.pathExists p = true ∧ fs.isDirPath p = true ∧ fs.watchOk p = true ∧
    ∃ es, fs.readDir p = some es
      ∧ es.all (fun e => match e with | .readErr => false | _ => true) = true := by
  unfold goodNavB at hg
  simp only [Bool.and_eq_true] at hg
  refine ⟨hg.1.1.1, hg.1.1.2, hg.2, ?_⟩
  cases h : fs.readDir p with
  | none => rw [h] at hg; simp at hg
  | some es =>
    rw [h] at hg
    exact ⟨es, rfl, hg.1.2⟩

theorem refresh_ok (fs : NavFs) (s : FMState) (es : List EntryRes)
    (hrd : fs.readDir s.current_path = some es)
    (hok : es.all (fun e => match e with | .readErr => false | _ => true) = true) :
    ∃ its, collectItems s.show_hidden es = .ok its ∧
      refresh_items fs s
        = ({ s with
              items := sort_items its s.sort_by s.sort_order,
              selected_items := [] }, .ok ()) := by
  obtain ⟨its, hits⟩ := collectItems_ok s.show_hidden es hok
  exact ⟨its, hits, by simp [refresh_items, hrd, hits]⟩



/-- Unfolding a successful `navigate_to` up to the watcher step: with the
checks passed and the listing successful, it is `setup_watcher` applied to
the fully navigated state. -/
theorem navigate_core (fs : NavFs) (s : FMState) (p : Path) (hInv : Inv s)
    (hex : fs.pathExists p = true) (hdir : fs.isDirPath p = true)
    (es : List EntryRes) (hrd : fs.readDir p = some es)
    (hok : es.all (fun e => match e with | .readErr => false | _ => true) = true) :
    ∃ its, collectItems s.show_hidden es = .ok its ∧
      navigate_to fs s p
        = setup_watcher fs
            { s with
                current_path := p,
                items := sort_items its s.sort_by s.sort_order,
                selected_items := [],
                history := navHistory s p,
                history_index := (navHistory s p).length - 1 } p := by
  obtain ⟨its, hits⟩ := collectItems_ok s.show_hidden es hok
  refine ⟨its, hits, ?_⟩
  unfold navigate_to
  simp only [hex, hdir]
  rw [if_neg (by simp), if_neg (by simp)]
  by_cases hif : (s.history.take (s.history_index + 1)).getLast? = some p
  · rw [if_pos hif]
    obtain ⟨its2, hits2, href⟩ := refresh_ok fs
      { s with current_path := p, history := s.history.take (s.history_index + 1) } es
      (by simpa using hrd) hok
    rw [hits] at hits2
    cases hits2
    rw [href]
    unfold navHistory
    rw [if_pos hif]
    simp only [List.length_take]
    have hidx : (s.history_index + 1) ⊓ s.history.length - 1 = s.history_index := by
      unfold Inv at hInv
      omega
    rw [hidx]
  · rw [if_neg hif]
    obtain ⟨its2, hits2, href⟩ := refresh_ok fs
      { s with
          current_path := p,
          history := s.history.take (s.history_index + 1) ++ [p],
          history_index := (s.history.take (s.history_index + 1) ++ [p]).length - 1 } es
      (by simpa using hrd) hok
    rw [hits] at hits2
    cases hits2
    rw [href]
    unfold navHistory
    rw [if_neg hif]



/-- Full success of `navigate_to` on a good directory: the navigated
state, watcher installed, `Ok(())`. -/
theorem navigate_ok (fs : NavFs) (s : FMState) (p : Path) (hInv : Inv s)
    (hg : goodNavB fs p = true) :
    ∃ its, navigate_to fs s p
      = ({ s with
            current_path := p,
            items := its,
            selected_items := [],
            history := navHistory s p,
            history_index := (navHistory s p).length - 1,
            watcher := some p }, .ok ()) := by
  obtain ⟨hex, hdir, hw, es, hrd, hok⟩ := goodNav_spec fs p hg
  obtain ⟨its, hits, heq⟩ := navigate_core fs s p hInv hex hdir es hrd hok
  refine ⟨sort_items its s.sort_by s.sort_order, ?_⟩
  rw [heq]
  unfold setup_watcher
  rw [if_pos hw]



theorem collectItems_ok_all (sh : Bool) (es : List EntryRes) (its : List FileItem)
    (h : collectItems sh es = .ok its) :
    es.all (fun e => match e with | .readErr => false | _ => true) = true := by
  induction es generalizing its with
  | nil => simp
  | cons e rest ih =>
    cases e with
    | readErr => simp [collectItems] at h
    | statErr =>
      simp only [collectItems] at h
      simpa using ih its h
    | item it =>
      simp only [collectItems] at h
      cases hcr : collectItems sh rest with
      | error e2 => rw [hcr] at h; simp at h
      | ok its2 => simpa using ih its2 hcr

/-- C6: a successful `navigate_to` removes every history entry strictly
beyond the cursor, then appends the new path unless it equals the
post-truncation tail, and leaves the cursor at the history's last entry
(all former forward entries are gone from the history). -/
theorem navigate_truncates_forward_history (fs : NavFs) (s : FMState) (p : Path)
    (hInv : Inv s) (hg : goodNavB fs p = true) :
    (navigate_to fs s p).2 = .ok ()
    ∧ (navigate_to fs s p).1.history
        = (if (s.history.take (s.history_index + 1)).getLast? = some p
           then s.history.take (s.history_index + 1)
           else s.history.take (s.history_index + 1) ++ [p])
    ∧ (navigate_to fs s p).1.history_index
        = (navigate_to fs s p).1.history.length - 1 := by
  obtain ⟨its, heq⟩ := navigate_ok fs s p hInv hg
  rw [heq]
  exact ⟨rfl, rfl, rfl⟩

/-- The filesystem for the C6 witness: one good directory `["b"]`. -/
def c6Fs : NavFs :=
  { pathExists := fun p => p == ["b"]
    isDirPath := fun p => p == ["b"]
    readDir := fun _ => some []
    watchOk := fun _ => true }

/-- A state with two forward history entries beyond the cursor. -/
def c6State : FMState :=
  { current_path := ["h"]
    items := []
    selected_items := []
    history := [["h"], ["x"], ["y"]]
    history_index := 0
    sort_by := .Name
    sort_order := .Ascending
    show_hidden := false
    watcher := none }

/-- Witness for C6: navigating to `["b"]` from a cursor with forward
entries `["x"], ["y"]` discards them and appends `["b"]`. -/
theorem navigate_truncates_forward_history_witness :
    (navigate_to c6Fs c6State ["b"]).2 = .ok ()
    ∧ (navigate_to c6Fs c6State ["b"]).1.history
        = (if (c6State.history.take (c6State.history_index + 1)).getLast? = some ["b"]
           then c6State.history.take (c6State.history_index + 1)
           else c6State.history.take (c6State.history_index + 1) ++ [["b"]])
    ∧ (navigate_to c6Fs c6State ["b"]).1.history_index
        = (navigate_to c6Fs c6State ["b"]).1.history.length - 1 :=
  navigate_truncates_forward_history c6Fs c6State ["b"] (by decide) (by decide)



/-- C1 (amended): when the existence and directory checks pass and the
listing succeeds but installing the watcher fails, `navigate_to` returns
`Err` (the `?` on `setup_watcher` at `file_manager.rs:77` propagates the
failure) — yet the current path, history, snapshot and selection updates
have already been applied and are not rolled back, and the previous
watcher field is left as it was. -/
theorem navigate_watch_failure_keeps_state (fs : NavFs) (s : FMState) (p : Path)
    (hInv : Inv s) (hex : fs.pathExists p = true) (hdir : fs.isDirPath p = true)
    (es : List EntryRes) (hrd : fs.readDir p = some es)
    (its : List FileItem) (hits : collectItems s.show_hidden es = .ok its)
    (hw : fs.watchOk p = false) :
    navigate_to fs s p
      = ({ s with
            current_path := p,
            items := sort_items its s.sort_by s.sort_order,
            selected_items := [],
            history := navHistory s p,
            history_index := (navHistory s p).length - 1 }, .error .watchError) := by
  have hok := collectItems_ok_all s.show_hidden es its hits
  obtain ⟨its2, hits2, heq⟩ := navigate_core fs s p hInv hex hdir es hrd hok
  rw [hits] at hits2
  cases hits2
  rw [heq]
  unfold setup_watcher
  rw [if_neg (by simp [hw])]

/-- The filesystem for the C1 counterexample and witness: `["a"]` exists,
is a directory and lists fine, but no watcher can be installed. -/
def c1Fs : NavFs :=
  { pathExists := fun p => p == ["a"]
    isDirPath := fun p => p == ["a"]
    readDir := fun _ => some []
    watchOk := fun _ => false }

/-- The home directory the C1 manager starts in. -/
def c1Home : Path := ["home"]

/-- C1 (counterexample): `["a"]` exists, is a directory and is listable,
yet `navigate_to` returns an error because the watcher installation
failed — refuting the claim that watcher failure never causes
`navigate_to` to return an error. -/
theorem navigate_watch_failure_cex :
    c1Fs.pathExists ["a"] = true ∧ c1Fs.isDirPath ["a"] = true
    ∧ c1Fs.readDir ["a"] = some []
    ∧ (navigate_to c1Fs (FileManager.new c1Home) ["a"]).2 = .error .watchError :=
  ⟨rfl, rfl, rfl, rfl⟩

/-- Witness for the amended C1 theorem at a concrete input. -/
theorem navigate_watch_failure_witness :
    navigate_to c1Fs (FileManager.new c1Home) ["a"]
      = ({ FileManager.new c1Home with
            current_path := ["a"],
            items := sort_items [] (FileManager.new c1Home).sort_by
              (FileManager.new c1Home).sort_order,
            selected_items := [],
            history := navHistory (FileManager.new c1Home) ["a"],
            history_index := (navHistory (FileManager.new c1Home) ["a"]).length - 1 },
         .error .watchError) :=
  navigate_watch_failure_keeps_state c1Fs (FileManager.new c1Home) ["a"]
    (by decide) rfl rfl [] rfl [] rfl rfl



/-- When the cursor sits at the history tail and the tail is not `p`,
`navigate_to`'s history update is a plain append. -/
theorem navHistory_at_tail (s : FMState) (p : Path)
    (hidx : s.history_index = s.history.length - 1) (hne : s.history ≠ [])
    (hlast : s.history.getLast? ≠ some p) :
    navHistory s p = s.history ++ [p] := by
  have hlen : 1 ≤ s.history.length := by
    cases h : s.history with
    | nil => exact absurd h hne
    | cons a l => simp [h]
  have htk : s.history.take (s.history_index + 1) = s.history := by
    rw [hidx]
    have h2 : s.history.length - 1 + 1 = s.history.length := by omega
    rw [h2, List.take_length]
  unfold navHistory
  rw [htk, if_neg hlast]

/-- C5: after `navigate(A)` then `navigate(B)` (both good directories,
`A ≠ B`), `go_back` succeeds and restores `A`, and `go_forward` then
succeeds and restores `B`; moreover `go_back` at cursor `0` and
`go_forward` at the history tail are successful no-ops leaving the state
unchanged. -/
theorem back_forward_round_trip (fs : NavFs) (s : FMState) (A B : Path)
    (hInv : Inv s) (hA : goodNavB fs A = true) (hB : goodNavB fs B = true)
    (hAB : A ≠ B) :
    ((go_back fs (navigate_to fs (navigate_to fs s A).1 B).1).2 = .ok ()
      ∧ (go_back fs (navigate_to fs (navigate_to fs s A).1 B).1).1.current_path = A
      ∧ (go_forward fs
          (go_back fs (navigate_to fs (navigate_to fs s A).1 B).1).1).2 = .ok ()
      ∧ (go_forward fs
          (go_back fs (navigate_to fs (navigate_to fs s A).1 B).1).1).1.current_path = B)
    ∧ (∀ t : FMState, t.history_index = 0 → go_back fs t = (t, .ok ()))
    ∧ (∀ t : FMState, t.history_index = t.history.length - 1 →
        go_forward fs t = (t, .ok ())) := by
  refine ⟨?_, ?_, ?_⟩
  rotate_left
  · intro t ht
    unfold go_back
    rw [if_neg (by omega)]
  · intro t ht
    unfold go_forward
    rw [if_neg (by omega)]
  obtain ⟨_, _, _, esA, hrdA, hokA⟩ := goodNav_spec fs A hA
  obtain ⟨_, _, _, esB, hrdB, hokB⟩ := goodNav_spec fs B hB
  obtain ⟨itsA, heqA⟩ := navigate_ok fs s A hInv hA
  have hlastA : (navHistory s A).getLast? = some A := navHistory_getLast s A
  have hneA : navHistory s A ≠ [] := navHistory_ne_nil s A
  have hlenA : 1 ≤ (navHistory s A).length := by
    cases h : navHistory s A with
    | nil => exact absurd h hneA
    | cons a l => simp [h]
  rw [heqA]
  set s1 : FMState :=
    { s with
        current_path := A,
        items := itsA,
        selected_items := [],
        history := navHistory s A,
        history_index := (navHistory s A).length - 1,
        watcher := some A } with hs1
  have hInv1 : Inv s1 := by
    show s1.history_index < s1.history.length
    rw [hs1]
    show (navHistory s A).length - 1 < (navHistory s A).length
    omega
  obtain ⟨itsB, heqB⟩ := navigate_ok fs s1 B hInv1 hB
  have hH2 : navHistory s1 B = navHistory s A ++ [B] := by
    have h1 : s1.history_index = s1.history.length - 1 := rfl
    have h2 : s1.history ≠ [] := hneA
    have h3 : s1.history.getLast? ≠ some B := by
      show (navHistory s A).getLast? ≠ some B
      rw [hlastA]
      simpa using hAB
    have h4 := navHistory_at_tail s1 B h1 h2 h3
    rw [h4]
  rw [heqB]
  set s2 : FMState :=
    { s1 with
        current_path := B,
        items := itsB,
        selected_items := [],
        history := navHistory s1 B,
        history_index := (navHistory s1 B).length - 1,
        watcher := some B } with hs2
  have hist2 : s2.history = navHistory s A ++ [B] := by
    rw [hs2]
    exact hH2
  have hidx2 : s2.history_index = (navHistory s A).length := by
    rw [hs2]
    show (navHistory s1 B).length - 1 = _
    rw [hH2]
    simp
  have hposi : s2.history_index > 0 := by
    rw [hidx2]
    omega
  have hcur : s2.history.getD (s2.history_index - 1) [] = A := by
    rw [hist2, hidx2]
    rw [List.getD_append _ _ _ _ (by omega)]
    rw [List.getD_eq_getElem?_getD, ← List.getLast?_eq_getElem?, hlastA]
    rfl
  obtain ⟨xA, _, hrefA⟩ := refresh_ok fs
    { s2 with history_index := s2.history_index - 1, current_path := A } esA hrdA hokA
  have hgb : go_back fs s2
      = ({ s2 with
            history_index := s2.history_index - 1,
            current_path := A,
            items := sort_items xA s2.sort_by s2.sort_order,
            selected_items := [] }, .ok ()) := by
    unfold go_back
    rw [if_pos hposi]
    dsimp only
    rw [hcur]
    exact hrefA
  have hulen : ({ s2 with
      history_index := s2.history_index - 1,
      current_path := A,
      items := sort_items xA s2.sort_by s2.sort_order,
      selected_items := [] } : FMState).history.length = (navHistory s A).length + 1 := by
    show s2.history.length = _
    rw [hist2]
    simp
  have hfc : ({ s2 with
      history_index := s2.history_index - 1,
      current_path := A,
      items := sort_items xA s2.sort_by s2.sort_order,
      selected_items := [] } : FMState).history_index
      < ({ s2 with
          history_index := s2.history_index - 1,
          current_path := A,
          items := sort_items xA s2.sort_by s2.sort_order,
          selected_items := [] } : FMState).history.length - 1 := by
    rw [hulen]
    show s2.history_index - 1 < _
    rw [hidx2]
    omega
  have hgetB : ({ s2 with
      history_index := s2.history_index - 1,
      current_path := A,
      items := sort_items xA s2.sort_by s2.sort_order,
      selected_items := [] } : FMState).history.getD
        (({ s2 with
            history_index := s2.history_index - 1,
            current_path := A,
            items := sort_items xA s2.sort_by s2.sort_order,
            selected_items := [] } : FMState).history_index + 1) [] = B := by
    show s2.history.getD (s2.history_index - 1 + 1) [] = B
    rw [hist2, hidx2]
    rw [show (navHistory s A).length - 1 + 1 = (navHistory s A).length from by omega]
    rw [List.getD_append_right _ _ _ _ (Nat.le_refl _)]
    simp
  obtain ⟨xB, _, hrefB⟩ := refresh_ok fs
    { s2 with
        history_index := s2.history_index - 1 + 1,
        current_path := B,
        items := sort_items xA s2.sort_by s2.sort_order,
        selected_items := [] } esB hrdB hokB
  have hgf : go_forward fs
      { s2 with
          history_index := s2.history_index - 1,
          current_path := A,
          items := sort_items xA s2.sort_by s2.sort_order,
          selected_items := [] }
      = ({ s2 with
            history_index := s2.history_index - 1 + 1,
            current_path := B,
            items := sort_items xB s2.sort_by s2.sort_order,
            selected_items := [] }, .ok ()) := by
    unfold go_forward
    rw [if_pos hfc]
    dsimp only
    rw [hgetB]
    exact hrefB
  rw [hgb]
  dsimp only
  refine ⟨rfl, rfl, ?_, ?_⟩
  · rw [hgf]
  · rw [hgf]


/-- The filesystem for the C5 witness: two good directories. -/
def c5Fs : NavFs :=
  { pathExists := fun p => p == ["a"] || p == ["b"]
    isDirPath := fun p => p == ["a"] || p == ["b"]
    readDir := fun _ => some []
    watchOk := fun _ => true }

/-- Witness for C5 at concrete directories `["a"]` and `["b"]`. -/
theorem back_forward_round_trip_witness :
    (go_back c5Fs
        (navigate_to c5Fs (navigate_to c5Fs (FileManager.new ["home"]) ["a"]).1 ["b"]).1).2
      = .ok ()
    ∧ (go_back c5Fs
        (navigate_to c5Fs (navigate_to c5Fs (FileManager.new ["home"]) ["a"]).1
          ["b"]).1).1.current_path = ["a"]
    ∧ (go_forward c5Fs
        (go_back c5Fs
          (navigate_to c5Fs (navigate_to c5Fs (FileManager.new ["home"]) ["a"]).1
            ["b"]).1).1).2 = .ok ()
    ∧ (go_forward c5Fs
        (go_back c5Fs
          (navigate_to c5Fs (navigate_to c5Fs (FileManager.new ["home"]) ["a"]).1
            ["b"]).1).1).1.current_path = ["b"] :=
  (back_forward_round_trip c5Fs (FileManager.new ["home"]) ["a"] ["b"]
    (by decide) (by decide) (by decide) (by decide)).1



/-! ## `operations/copy.rs`: the copy engine

The source side of the filesystem is modeled as explicit finite trees
(`SrcTree`): a source path plus the tree rooted there.  This mirrors what
`copy_recursive` observes through `is_file` / `is_dir` / `read_dir`, and
is what guarantees its termination in practice (a finite directory tree).
The destination side is a predicate `preExists` for what was on disk
before the operation, plus the `Written` record of what the operation has
created so far — `dest.exists()` consults both.  Reads of the source area
and writes to the destination are assumed not to overlap (the operation
would otherwise observe its own writes), and I/O-level read failures are
not modeled: the only failure of the modeled operation is the
`AlreadyExists` overwrite refusal, and the only panic the
`file_name().unwrap()` on a component-less source path. -/

mutual

/-- A source filesystem tree: a file with its byte size, or a directory
with its named children in `read_dir` order. -/
inductive SrcTree where
  | file (size : Nat)
  | dir (entries : SrcForest)
deriving DecidableEq, Repr

/-- The children of a directory, in `read_dir` order (isomorphic to
`List (String × SrcTree)`; a mutual inductive so the copy recursion is
structural). -/
inductive SrcForest where
  | nil
  | cons (name : String) (t : SrcTree) (rest : SrcForest)
deriving DecidableEq, Repr

end

/-- `CopyProgress` from `operations/copy.rs`. -/
structure CopyProgress where
  current_file : Path
  total_files : Nat
  completed_files : Nat
  bytes_copied : Nat
  total_bytes : Nat
deriving DecidableEq, Repr

/-- What the copy operation has created on the destination side so far. -/
structure Written where
  files : List (Path × Nat)
  dirs : List Path
deriving DecidableEq, Repr

/-- A `CopyOperation`: source paths with their trees, the destination
directory, the overwrite flag, and the pre-existing destination content. -/
structure CopyCtx where
  source_paths : List (Path × SrcTree)
  destination : Path
  overwrite : Bool
  preExists : Path → Bool

/-- `dest.exists()` during the run: present before the operation, or
created by it. -/
def Written.existsAt (ctx : CopyCtx) (w : Written) (p : Path) : Bool :=
  ctx.preExists p || w.files.any (fun q => q.1 == p) || w.dirs.contains p

/-- `fs::create_dir_all` on the destination side (idempotent). -/
def Written.addDir (w : Written) (p : Path) : Written :=
  if w.dirs.contains p then w else { w with dirs := w.dirs ++ [p] }

/-- `fs::copy` writing the destination file. -/
def Written.addFile (w : Written) (p : Path) (sz : Nat) : Written :=
  { w with files := w.files ++ [(p, sz)] }

/-- The error of the modeled copy operation. -/
inductive CopyErr where
  | alreadyExists
deriving DecidableEq, Repr

/-- How one copy call ends: `Ok(())`, `Err(e)`, or a Rust panic
(`unwrap` on `None`). -/
inductive CopyRes where
  | ok
  | err (e : CopyErr)
  | panicked
deriving DecidableEq, Repr

/-- The mutable state threaded through the second pass: what has been
written, the two counters, and the progress events sent so far. -/
structure CopySt where
  w : Written
  completed_files : Nat
  bytes_copied : Nat
  events : List CopyProgress
deriving DecidableEq, Repr

/-- `CopyOperation::copy_file` (lines 145-157): refuse if the destination
exists and overwrite is off; otherwise create the parent directory and
copy the bytes. -/
def copy_file (ctx : CopyCtx) (w : Written) (sz : Nat) (dest : Path) :
    Except CopyErr Written :=
  if Written.existsAt ctx w dest && !ctx.overwrite then .error .alreadyExists
  else .ok ((w.addDir dest.dropLast).addFile dest sz)

mutual

/-- `walkdir` over a source tree: number of files. -/
def SrcTree.countFiles : SrcTree → Nat
  | .file _ => 1
  | .dir es => countFilesL es

/-- See `SrcTree.countFiles`. -/
def countFilesL : SrcForest → Nat
  | .nil => 0
  | .cons _ t rest => t.countFiles + countFilesL rest

end

mutual

/-- `walkdir` over a source tree: total bytes of the files. -/
def SrcTree.sumBytes : SrcTree → Nat
  | .file sz => sz
  | .dir es => sumBytesL es

/-- See `SrcTree.sumBytes`. -/
def sumBytesL : SrcForest → Nat
  | .nil => 0
  | .cons _ t rest => t.sumBytes + sumBytesL rest

end

/-- `CopyOperation::calculate_work` (lines 75-93) summed over the source
list: the totals of the first pass. -/
def copyTotals (ctx : CopyCtx) : Nat × Nat :=
  ((ctx.source_paths.map (fun sp => sp.2.countFiles)).sum,
   (ctx.source_paths.map (fun sp => sp.2.sumBytes)).sum)

mutual

/-- `CopyOperation::copy_recursive` (lines 95-143).  `file_name().unwrap()`
panics when the source path has no final component; a file is copied via
`copy_file`, the counters advance and one progress event is emitted; a
directory is created at the destination and its children are copied
sequentially, aborting at the first non-`ok` outcome. -/
def copy_recursive (ctx : CopyCtx) (srcPath : Path) (tree : SrcTree) (dest_dir : Path)
    (tot_f tot_b : Nat) (st : CopySt) : CopySt × CopyRes :=
  match srcPath.getLast?, tree with
  | none, _ => (st, .panicked)
  | some name, .file sz =>
    match copy_file ctx st.w sz (dest_dir ++ [name]) with
    | .error e => (st, .err e)
    | .ok w2 =>
      ({ w := w2,
         completed_files := st.completed_files + 1,
         bytes_copied := st.bytes_copied + sz,
         events := st.events
           ++ [{ current_file := srcPath,
                 total_files := tot_f,
                 completed_files := st.completed_files + 1,
                 bytes_copied := st.bytes_copied + sz,
                 total_bytes := tot_b }] }, .ok)
  | some name, .dir es =>
    copy_children ctx srcPath es (dest_dir ++ [name]) tot_f tot_b
      { st with w := st.w.addDir (dest_dir ++ [name]) }

/-- The `for entry in fs::read_dir(source)?` loop of `copy_recursive`. -/
def copy_children (ctx : CopyCtx) (srcPath : Path)
    (es : SrcForest) (dest_path : Path)
    (tot_f tot_b : Nat) (st : CopySt) : CopySt × CopyRes :=
  match es with
  | .nil => (st, .ok)
  | .cons n t rest =>
    match copy_recursive ctx (srcPath ++ [n]) t dest_path tot_f tot_b st with
    | (st2, .ok) => copy_children ctx srcPath rest dest_path tot_f tot_b st2
    | (st2, r) => (st2, r)

end

/-- The `Written` state after `execute`'s initial
`if !destination.exists() { create_dir_all }`. -/
def initWritten (ctx : CopyCtx) : Written :=
  if ctx.preExists ctx.destination then ⟨[], []⟩ else ⟨[], [ctx.destination]⟩

/-- The state at the start of the second pass. -/
def initCopySt (ctx : CopyCtx) : CopySt :=
  { w := initWritten ctx, completed_files := 0, bytes_copied := 0, events := [] }

/-- The `for source in &self.source_paths` loop of `execute`. -/
def execSources (ctx : CopyCtx) (srcs : List (Path × SrcTree))
    (tot_f tot_b : Nat) (st : CopySt) : CopySt × CopyRes :=
  match srcs with
  | [] => (st, .ok)
  | sp :: rest =>
    match copy_recursive ctx sp.1 sp.2 ctx.destination tot_f tot_b st with
    | (st2, .ok) => execSources ctx rest tot_f tot_b st2
    | (st2, r) => (st2, r)

/-- `CopyOperation::execute` (lines 42-73): create the destination if
missing, compute the totals in a first pass, then copy every source. -/
def execute (ctx : CopyCtx) : CopySt × CopyRes :=
  execSources ctx ctx.source_paths (copyTotals ctx).1 (copyTotals ctx).2 (initCopySt ctx)



/-- One step of the copy operation's depth-first traversal, in the order
the second pass performs them. -/
inductive VisitEvent where
  | panicEv
  | enterDir (dest : Path)
  | fileEv (src : Path) (size : Nat) (dest : Path)

mutual

/-- The traversal sequence of `copy_recursive` on one source. -/
def visitTree (srcPath : Path) (tree : SrcTree) (dest_dir : Path) : List VisitEvent :=
  match srcPath.getLast?, tree with
  | none, _ => [.panicEv]
  | some name, .file sz => [.fileEv srcPath sz (dest_dir ++ [name])]
  | some name, .dir es => .enterDir (dest_dir ++ [name]) :: visitChildren srcPath es (dest_dir ++ [name])

/-- The traversal sequence of the `read_dir` loop. -/
def visitChildren (srcPath : Path) (es : SrcForest) (dp : Path) :
    List VisitEvent :=
  match es with
  | .nil => []
  | .cons n t rest => visitTree (srcPath ++ [n]) t dp ++ visitChildren srcPath rest dp

end

/-- The whole operation's traversal sequence. -/
def visitSeq (ctx : CopyCtx) : List VisitEvent :=
  (ctx.source_paths.map (fun sp => visitTree sp.1 sp.2 ctx.destination)).flatten

/-- The effect of one traversal step on the copy state. -/
def stepVisit (ctx : CopyCtx) (tf tb : Nat) (st : CopySt) :
    VisitEvent → CopySt × CopyRes
  | .panicEv => (st, .panicked)
  | .enterDir d => ({ st with w := st.w.addDir d }, .ok)
  | .fileEv src sz dest =>
    match copy_file ctx st.w sz dest with
    | .error e => (st, .err e)
    | .ok w2 =>
      ({ w := w2,
         completed_files := st.completed_files + 1,
         bytes_copied := st.bytes_copied + sz,
         events := st.events
           ++ [{ current_file := src,
                 total_files := tf,
                 completed_files := st.completed_files + 1,
                 bytes_copied := st.bytes_copied + sz,
                 total_bytes := tb }] }, .ok)

/-- Run the traversal sequence, aborting at the first non-`ok` step. -/
def runVisit (ctx : CopyCtx) (tf tb : Nat) : List VisitEvent → CopySt → CopySt × CopyRes
  | [], st => (st, .ok)
  | e :: rest, st =>
    match stepVisit ctx tf tb st e with
    | (st2, .ok) => runVisit ctx tf tb rest st2
    | (st2, r) => (st2, r)

theorem runVisit_append (ctx : CopyCtx) (tf tb : Nat) (l1 l2 : List VisitEvent)
    (st : CopySt) :
    runVisit ctx tf tb (l1 ++ l2) st
      = match runVisit ctx tf tb l1 st with
        | (st2, .ok) => runVisit ctx tf tb l2 st2
        | (st2, r) => (st2, r) := by
  induction l1 generalizing st with
  | nil => simp [runVisit]
  | cons e rest ih =>
    simp only [List.cons_append, runVisit]
    cases h : stepVisit ctx tf tb st e with
    | mk st2 r =>
      cases r with
      | ok => simpa using ih st2
      | err e2 => simp
      | panicked => simp

mutual

/-- `copy_recursive` is the linear run of its traversal sequence. -/
theorem copy_recursive_eq_run (ctx : CopyCtx) (srcPath : Path) (tree : SrcTree)
    (dest_dir : Path) (tf tb : Nat) (st : CopySt) :
    copy_recursive ctx srcPath tree dest_dir tf tb st
      = runVisit ctx tf tb (visitTree srcPath tree dest_dir) st := by
  cases hl : srcPath.getLast? with
  | none =>
    rw [copy_recursive.eq_def, visitTree.eq_def, hl]
    simp [runVisit, stepVisit]
  | some name =>
    cases tree with
    | file sz =>
      rw [copy_recursive.eq_def, visitTree.eq_def, hl]
      simp only [runVisit, stepVisit]
      cases h : copy_file ctx st.w sz (dest_dir ++ [name]) <;> simp [runVisit]
    | dir es =>
      rw [copy_recursive.eq_def, visitTree.eq_def, hl]
      simp only [runVisit, stepVisit]
      exact copy_children_eq_run ctx srcPath es (dest_dir ++ [name]) tf tb _
termination_by sizeOf tree
decreasing_by all_goals simp_wf

/-- `copy_children` is the linear run of its traversal sequence. -/
theorem copy_children_eq_run (ctx : CopyCtx) (srcPath : Path)
    (es : SrcForest) (dp : Path) (tf tb : Nat) (st : CopySt) :
    copy_children ctx srcPath es dp tf tb st
      = runVisit ctx tf tb (visitChildren srcPath es dp) st := by
  cases es with
  | nil => simp [copy_children, visitChildren, runVisit]
  | cons n t rest =>
    simp only [copy_children, visitChildren]
    rw [runVisit_append, ← copy_recursive_eq_run ctx (srcPath ++ [n]) t dp tf tb st]
    cases h : copy_recursive ctx (srcPath ++ [n]) t dp tf tb st with
    | mk st2 r =>
      cases r with
      | ok => exact copy_children_eq_run ctx srcPath rest dp tf tb st2
      | err e2 => rfl
      | panicked => rfl
termination_by sizeOf es
decreasing_by all_goals (simp_wf <;> omega)

end

/-- `execute` is the linear run of the whole traversal sequence. -/
theorem execute_eq_run (ctx : CopyCtx) :
    execute ctx
      = runVisit ctx (copyTotals ctx).1 (copyTotals ctx).2 (visitSeq ctx)
          (initCopySt ctx) := by
  unfold execute visitSeq
  generalize initCopySt ctx = st
  induction ctx.source_paths generalizing st with
  | nil => simp [execSources, runVisit]
  | cons sp rest ih =>
    rw [execSources]
    simp only [List.map_cons, List.flatten_cons]
    rw [runVisit_append, ← copy_recursive_eq_run]
    cases h : copy_recursive ctx sp.1 sp.2 ctx.destination
        (copyTotals ctx).1 (copyTotals ctx).2 st with
    | mk st2 r =>
      cases r with
      | ok => exact ih st2
      | err e2 => rfl
      | panicked => rfl



mutual

/-- A source with a nonempty path never produces the panic step (children
paths always end in the child's name). -/
theorem visitTree_no_panic (srcPath : Path) (tree : SrcTree) (dd : Path)
    (h : srcPath ≠ []) : VisitEvent.panicEv ∉ visitTree srcPath tree dd := by
  cases hl : srcPath.getLast? with
  | none => exact absurd (List.getLast?_eq_none_iff.mp hl) h
  | some name =>
    cases tree with
    | file sz =>
      rw [visitTree.eq_def, hl]
      simp
    | dir es =>
      rw [visitTree.eq_def, hl]
      intro hmem
      rcases List.mem_cons.mp hmem with h1 | h2
      · simp at h1
      · exact visitChildren_no_panic srcPath es (dd ++ [name]) h2
termination_by sizeOf tree

/-- See `visitTree_no_panic`. -/
theorem visitChildren_no_panic (srcPath : Path) (es : SrcForest) (dp : Path) :
    VisitEvent.panicEv ∉ visitChildren srcPath es dp := by
  cases es with
  | nil => simp [visitChildren]
  | cons n t rest =>
    simp only [visitChildren]
    intro hmem
    rcases List.mem_append.mp hmem with h1 | h2
    · exact visitTree_no_panic (srcPath ++ [n]) t dp (by simp) h1
    · exact visitChildren_no_panic srcPath rest dp h2
termination_by sizeOf es

end

/-- A traversal with no panic step never reports a panic. -/
theorem runVisit_no_panic (ctx : CopyCtx) (tf tb : Nat) (l : List VisitEvent)
    (st : CopySt) (h : VisitEvent.panicEv ∉ l) :
    (runVisit ctx tf tb l st).2 ≠ .panicked := by
  induction l generalizing st with
  | nil => simp [runVisit]
  | cons e rest ih =>
    have hne : e ≠ .panicEv := fun he => h (he ▸ List.mem_cons_self e rest)
    have hrest : VisitEvent.panicEv ∉ rest := fun hm => h (List.mem_cons_of_mem e hm)
    simp only [runVisit]
    cases e with
    | panicEv => exact absurd rfl hne
    | enterDir d =>
      simp only [stepVisit]
      exact ih _ hrest
    | fileEv src sz dest =>
      simp only [stepVisit]
      cases hcf : copy_file ctx st.w sz dest with
      | error e2 => simp
      | ok w2 => exact ih _ hrest

/-- A copy context whose single source is the component-less root path. -/
def rootCopyCtx : CopyCtx :=
  { source_paths := [(([] : Path), .dir .nil)]
    destination := ["d"]
    overwrite := false
    preExists := fun _ => false }

/-- C10: the second pass's `file_name().unwrap()` (copy.rs:105) is
unreachable whenever every source path has a final component — the copy
then never panics (children visited by the recursion always carry their
own name as final component); with a component-less source path such as
the filesystem root, the operation panics instead of returning an error
result. -/
theorem copy_unwrap_precondition :
    (∀ ctx : CopyCtx, (∀ sp ∈ ctx.source_paths, sp.1 ≠ []) →
        (execute ctx).2 ≠ .panicked)
    ∧ (execute rootCopyCtx).2 = .panicked := by
  constructor
  · intro ctx h
    rw [execute_eq_run]
    apply runVisit_no_panic
    intro hmem
    obtain ⟨l, hl, hml⟩ := List.mem_flatten.mp hmem
    obtain ⟨sp, hsp, rfl⟩ := List.mem_map.mp hl
    exact visitTree_no_panic sp.1 sp.2 ctx.destination (h sp hsp) hml
  · rfl

/-- An ordinary copy context for the C10 witness. -/
def okCopyCtx : CopyCtx :=
  { source_paths := [(["s"], .file 3)]
    destination := ["d"]
    overwrite := false
    preExists := fun _ => false }

/-- Witness for C10 at a concrete source list with nonempty paths. -/
theorem copy_unwrap_precondition_witness : (execute okCopyCtx).2 ≠ .panicked :=
  copy_unwrap_precondition.1 okCopyCtx (by decide)



/-- The progress-event invariant maintained by the copy run: all events
carry the fixed totals, consecutive events strictly increase the file
counter and weakly increase the byte counter, and the live counters
dominate every event sent so far. -/
def EvInv (tf tb : Nat) (st : CopySt) : Prop :=
  (∀ e ∈ st.events, e.total_files = tf ∧ e.total_bytes = tb)
  ∧ List.Chain' (fun a b => a.completed_files < b.completed_files
      ∧ a.bytes_copied ≤ b.bytes_copied) st.events
  ∧ (∀ e ∈ st.events, e.completed_files ≤ st.completed_files
      ∧ e.bytes_copied ≤ st.bytes_copied)

theorem stepVisit_inv (ctx : CopyCtx) (tf tb : Nat) (st : CopySt) (ev : VisitEvent)
    (h : EvInv tf tb st) : EvInv tf tb (stepVisit ctx tf tb st ev).1 := by
  obtain ⟨h1, h2, h3⟩ := h
  cases ev with
  | panicEv => exact ⟨h1, h2, h3⟩
  | enterDir d => exact ⟨h1, h2, h3⟩
  | fileEv src sz dest =>
    simp only [stepVisit]
    cases hcf : copy_file ctx st.w sz dest with
    | error e2 => exact ⟨h1, h2, h3⟩
    | ok w2 =>
      refine ⟨?_, ?_, ?_⟩
      · intro e he
        rcases List.mem_append.mp he with he | he
        · exact h1 e he
        · simp only [List.mem_singleton] at he
          subst he
          exact ⟨rfl, rfl⟩
      · rw [List.chain'_append]
        refine ⟨h2, by simp, ?_⟩
        intro x hx y hy
        simp only [List.head?_cons, Option.mem_def, Option.some.injEq] at hy
        subst hy
        have hx' := h3 x (List.mem_of_mem_getLast? hx)
        refine ⟨?_, ?_⟩ <;> (dsimp only; omega)
      · intro e he
        rcases List.mem_append.mp he with he | he
        · have h4 := h3 e he
          refine ⟨?_, ?_⟩ <;> (dsimp only; omega)
        · simp only [List.mem_singleton] at he
          subst he
          exact ⟨Nat.le_refl _, Nat.le_refl _⟩

theorem runVisit_inv (ctx : CopyCtx) (tf tb : Nat) (l : List VisitEvent) (st : CopySt)
    (h : EvInv tf tb st) : EvInv tf tb (runVisit ctx tf tb l st).1 := by
  induction l generalizing st with
  | nil => exact h
  | cons e rest ih =>
    simp only [runVisit]
    cases hs : stepVisit ctx tf tb st e with
    | mk st2 r =>
      have h2 : EvInv tf tb st2 := by
        have h3 := stepVisit_inv ctx tf tb st e h
        rw [hs] at h3
        exact h3
      cases r with
      | ok => exact ih st2 h2
      | err e2 => exact h2
      | panicked => exact h2

/-- C7 (amended): within one copy run, every progress event carries the
fixed totals of the first counting pass, `completed_files` strictly
increases from one event to the next, and `bytes_copied` is monotonically
non-decreasing (it does not strictly increase across a zero-byte file;
see the counterexample). -/
theorem copy_progress_monotonic (ctx : CopyCtx) :
    ((execute ctx).1.events.all
        (fun e => decide (e.total_files = (copyTotals ctx).1)
          && decide (e.total_bytes = (copyTotals ctx).2))) = true
    ∧ List.Chain'
        (fun a b => a.completed_files < b.completed_files
          ∧ a.bytes_copied ≤ b.bytes_copied) (execute ctx).1.events := by
  have hinv : EvInv (copyTotals ctx).1 (copyTotals ctx).2 (execute ctx).1 := by
    rw [execute_eq_run]
    exact runVisit_inv _ _ _ _ _
      ⟨by simp [initCopySt], by simp [initCopySt], by simp [initCopySt]⟩
  obtain ⟨h1, h2, _⟩ := hinv
  refine ⟨?_, h2⟩
  rw [List.all_eq_true]
  intro e he
  have h3 := h1 e he
  simp [h3.1, h3.2]

/-- A copy of two zero-byte files: `bytes_copied` stays `0` across the
two events. -/
def c7Ctx : CopyCtx :=
  { source_paths := [(["s"], .dir (.cons "a" (.file 0) (.cons "b" (.file 0) .nil)))]
    destination := ["d"]
    overwrite := false
    preExists := fun _ => false }

/-- C7 (counterexample): copying two zero-byte files emits two progress
events whose `bytes_copied` are both `0`, refuting the claim that
`bytes_copied` strictly increases from one event to the next. -/
theorem copy_progress_not_strict_cex :
    (execute c7Ctx).1.events.map (fun e => e.bytes_copied) = [0, 0]
    ∧ ¬ List.Chain' (fun a b => a.bytes_copied < b.bytes_copied)
        (execute c7Ctx).1.events := by
  refine ⟨rfl, ?_⟩
  intro hch
  have hev : (execute c7Ctx).1.events
      = [{ current_file := ["s", "a"], total_files := 2, completed_files := 1,
           bytes_copied := 0, total_bytes := 0 },
         { current_file := ["s", "b"], total_files := 2, completed_files := 2,
           bytes_copied := 0, total_bytes := 0 }] := rfl
  rw [hev] at hch
  rcases List.chain'_cons.mp hch with ⟨hlt, _⟩
  exact Nat.lt_irrefl 0 hlt



/-- C2: with `overwrite = false`, when the copy's traversal reaches a file
whose destination path exists at that moment (`hrun` says the run reached
it cleanly, `hconf` that the destination exists), `execute` returns
`Err(AlreadyExists)` and the final state is exactly the state `st`
reached before that file: the files copied before the failure remain
written (no rollback), and no event, counter or write after the failing
file occurs (whole-operation abort, not per-file skip). -/
theorem copy_abort_on_existing (ctx : CopyCtx) (hov : ctx.overwrite = false)
    (l1 l2 : List VisitEvent) (fsrc : Path) (sz : Nat) (fdst : Path) (st : CopySt)
    (hsplit : visitSeq ctx = l1 ++ .fileEv fsrc sz fdst :: l2)
    (hrun : runVisit ctx (copyTotals ctx).1 (copyTotals ctx).2 l1 (initCopySt ctx)
      = (st, .ok))
    (hconf : Written.existsAt ctx st.w fdst = true) :
    execute ctx = (st, .err .alreadyExists) := by
  rw [execute_eq_run, hsplit, runVisit_append, hrun]
  simp only [runVisit, stepVisit]
  unfold copy_file
  rw [hconf, hov]
  simp

/-- The C2 witness: one source directory with three files, the middle
one colliding with a pre-existing destination file. -/
def c2Ctx : CopyCtx :=
  { source_paths := [(["s"], .dir (.cons "a" (.file 5)
      (.cons "b" (.file 7) (.cons "c" (.file 9) .nil))))]
    destination := ["d"]
    overwrite := false
    preExists := fun p => p == ["d"] || p == ["d", "s", "b"] }

/-- Witness for C2: the copy stops at the collision on `d/s/b`, having
written `d/s/a` (5 bytes, one event) and created `d/s`; `d/s/c` is never
copied. -/
theorem copy_abort_on_existing_witness :
    execute c2Ctx
      = ({ w := { files := [(["d", "s", "a"], 5)], dirs := [["d", "s"]] },
           completed_files := 1,
           bytes_copied := 5,
           events := [{ current_file := ["s", "a"], total_files := 3,
                        completed_files := 1, bytes_copied := 5,
                        total_bytes := 21 }] }, .err .alreadyExists) :=
  copy_abort_on_existing c2Ctx rfl
    [.enterDir ["d", "s"], .fileEv ["s", "a"] 5 ["d", "s", "a"]]
    [.fileEv ["s", "c"] 9 ["d", "s", "c"]]
    ["s", "b"] 7 ["d", "s", "b"]
    { w := { files := [(["d", "s", "a"], 5)], dirs := [["d", "s"]] },
      completed_files := 1,
      bytes_copied := 5,
      events := [{ current_file := ["s", "a"], total_files := 3,
                   completed_files := 1, bytes_copied := 5, total_bytes := 21 }] }
    rfl rfl rfl



/-! ## `core/search.rs`: the search engine

The walk that `WalkDir::new(root).follow_links(false)` performs is
abstracted as the list of its yielded entries, in order: each element is
either the iterator's own error (`entry?`, e.g. the root walk failing or
an unreadable directory) or an entry carrying what the filesystem calls
on it observe — `path`, `is_file()`, the stat result used by both
`entry.metadata()` and `fs::metadata(path)` (`none` models a stat
failure, including a failing `modified()` inside it), and the
`read_to_string` result for content search (`none`: unreadable as text).
Regex mode (`is_regex = true`) is not modeled: the claims checked here
concern the substring mode, and `search_in_file_content` in the source
uses plain substring search even in regex mode. -/

/-- The stat data of one walked entry. -/
structure SMeta where
  size : Nat
  modified : Option Int
deriving DecidableEq, Repr

/-- One entry yielded by the walk. -/
structure SEntry where
  path : Path
  isFile : Bool
  meta : Option SMeta
  content : Option String
deriving DecidableEq, Repr

/-- `SearchQuery` from `core/search.rs` (without the unmodeled regex
flag). -/
structure SearchQuery where
  pattern : String
  case_sensitive : Bool
  search_in_content : Bool
  file_types : List String
  size_min : Option Nat
  size_max : Option Nat
  modified_after : Option Int
  modified_before : Option Int

/-- `SearchResult` from `core/search.rs` (thumbnail-free fields). -/
structure SearchResult where
  path : Path
  file_name : String
  size : Nat
  modified : Int
  match_context : Option String
deriving DecidableEq, Repr

/-- The search's only error kind (all `anyhow` I/O failures). -/
inductive SearchErr where
  | ioError
deriving DecidableEq, Repr

/-- `path.file_name().unwrap_or_default().to_string_lossy()`. -/
def fileNameOf (p : Path) : String := (p.getLast?).getD ""

/-- Index of the last `.` in a character list. -/
def lastDotIdx : List Char → Option Nat
  | [] => none
  | c :: rest =>
    match lastDotIdx rest with
    | some i => some (i + 1)
    | none => if c == '.' then some 0 else none

/-- `Path::extension()` on the file name: the part after the last dot;
none when there is no dot, or when the name's only dot is its leading
character (dotfiles have no extension). -/
def extOf (name : String) : Option String :=
  match lastDotIdx name.toList with
  | none => none
  | some 0 => none
  | some (i + 1) => some (String.mk (name.toList.drop (i + 2)))

/-- `pat` begins at the front of `s`. -/
def isPrefOf : List Char → List Char → Bool
  | [], _ => true
  | _ :: _, [] => false
  | a :: as, b :: bs => a == b && isPrefOf as bs

/-- `str::find` for a literal pattern: index of the first occurrence. -/
def findSub : List Char → List Char → Option Nat
  | [], pat => if isPrefOf pat [] then some 0 else none
  | a :: rest, pat =>
    if isPrefOf pat (a :: rest) then some 0
    else (findSub rest pat).map (fun i => i + 1)

/-- `str::contains` for a literal pattern. -/
def strContains (s pat : String) : Bool := (findSub s.toList pat.toList).isSome

/-- `FileSearcher::is_text_file` (`core/search.rs` lines 213-221). -/
def is_text_file (ext : String) : Bool :=
  ext == "txt" || ext == "md" || ext == "rst" || ext == "log" || ext == "cfg" ||
  ext == "conf" || ext == "ini" ||
  ext == "json" || ext == "xml" || ext == "yaml" || ext == "yml" || ext == "toml" ||
  ext == "rs" || ext == "py" || ext == "js" || ext == "ts" || ext == "html" ||
  ext == "css" || ext == "scss" ||
  ext == "c" || ext == "cpp" || ext == "h" || ext == "hpp" || ext == "java" ||
  ext == "go" || ext == "php" ||
  ext == "rb" || ext == "pl" || ext == "sh" || ext == "bash" || ext == "ps1" ||
  ext == "bat" || ext == "cmd"

/-- The read-and-scan part of `search_in_file_content` (lines 181-210):
a failed read is "no content match"; on a substring hit the excerpt runs
from 50 characters before the first match to 50 characters after the
pattern's end, clamped to the content (character = byte for the ASCII
data modeled). -/
def contentScan (q : SearchQuery) (e : SEntry) : Option String :=
  match e.content with
  | none => none
  | some content =>
    let search_content := if q.case_sensitive then content else strToLower content
    let pattern := if q.case_sensitive then q.pattern else strToLower q.pattern
    if strContains search_content pattern then
      match findSub search_content.toList pattern.toList with
      | some pos =>
        let start := pos - 50
        let stop := min (pos + pattern.length + 50) content.length
        some (String.mk ((content.toList.drop start).take (stop - start)))
      | none => none
    else none

/-- `FileSearcher::search_in_file_content` (lines 172-211): skip files
whose extension is outside the text allow-list (extensionless files are
read), then scan. -/
def search_in_file_content (q : SearchQuery) (e : SEntry) : Option String :=
  match extOf (fileNameOf e.path) with
  | some ext => if is_text_file (strToLower ext) then contentScan q e else none
  | none => contentScan q e

/-- The name predicate of `matches_criteria` (lines 101-118). -/
def nameMatches (q : SearchQuery) (file_name : String) : Bool :=
  let pattern := if q.case_sensitive then q.pattern else strToLower q.pattern
  let name_to_check := if q.case_sensitive then file_name else strToLower file_name
  strContains name_to_check pattern

/-- The extension filter of `matches_criteria` (lines 124-134). -/
def typePasses (q : SearchQuery) (p : Path) : Bool :=
  if q.file_types.isEmpty then true
  else
    match extOf (fileNameOf p) with
    | some ext => q.file_types.contains (strToLower ext)
    | none => q.file_types.contains ""

/-- `FileSearcher::matches_criteria` (lines 96-170): name, extension,
then — for files — the stat (`std::fs::metadata(path)?` and
`modified()?` propagate a stat failure as an error) and the size and
time bounds. -/
def matches_criteria (q : SearchQuery) (e : SEntry) : Except SearchErr Bool :=
  if nameMatches q (fileNameOf e.path) = false then .ok false
  else if typePasses q e.path = false then .ok false
  else if e.isFile then
    match e.meta with
    | none => .error .ioError
    | some m =>
      if (match q.size_min with | some mn => decide (m.size < mn) | none => false) then .ok false
      else if (match q.size_max with | some mx => decide (mx < m.size) | none => false) then .ok false
      else
        match m.modified with
        | none => .error .ioError
        | some t =>
          if (match q.modified_after with | some a => decide (t < a) | none => false) then .ok false
          else if (match q.modified_before with | some b => decide (b < t) | none => false) then .ok false
          else .ok true
  else .ok true

/-- The walk loop of `FileSearcher::search` (lines 69-91): `entry?`
propagates iterator errors; `matches_criteria?` propagates stat errors;
matching entries are stat'ed again (`entry.metadata()?`, `modified()?`)
and appended to the results with their content excerpt. -/
def searchGo (q : SearchQuery) (acc : List SearchResult) :
    List (Except SearchErr SEntry) → Except SearchErr (List SearchResult)
  | [] => .ok acc
  | .error e :: _ => .error e
  | .ok ent :: rest =>
    match matches_criteria q ent with
    | .error er => .error er
    | .ok false => searchGo q acc rest
    | .ok true =>
      match ent.meta with
      | none => .error .ioError
      | some m =>
        match m.modified with
        | none => .error .ioError
        | some t =>
          searchGo q
            (acc ++ [{ path := ent.path,
                       file_name := fileNameOf ent.path,
                       size := m.size,
                       modified := t,
                       match_context :=
                         if q.search_in_content && ent.isFile
                         then search_in_file_content q ent
                         else none }]) rest

/-- `FileSearcher::search` over the abstracted walk. -/
def FileSearcher.search (q : SearchQuery)
    (walk : List (Except SearchErr SEntry)) : Except SearchErr (List SearchResult) :=
  searchGo q [] walk

theorem searchGo_append (q : SearchQuery) (acc : List SearchResult)
    (l1 l2 : List (Except SearchErr SEntry)) :
    searchGo q acc (l1 ++ l2)
      = match searchGo q acc l1 with
        | .ok acc2 => searchGo q acc2 l2
        | .error e => .error e := by
  induction l1 generalizing acc with
  | nil => simp [searchGo]
  | cons x rest ih =>
    cases x with
    | error e => simp [searchGo]
    | ok ent =>
      simp only [List.cons_append, searchGo]
      cases hm : matches_criteria q ent with
      | error er => simp
      | ok b =>
        cases b with
        | false => exact ih acc
        | true =>
          cases hme : ent.meta with
          | none => simp
          | some m =>
            obtain ⟨msz, mmod⟩ := m
            cases mmod with
            | none => simp
            | some t =>
              dsimp only
              exact ih _



/-- C3 (amended): a failure to stat an entry reached during the walk
aborts the entire search with an error — the entry is not skipped and no
results are returned (first conjunct); likewise any iterator error
reached during the walk, not just one on the root, is fatal (second
conjunct). -/
theorem search_stat_failure_fatal (q : SearchQuery) :
    (∀ (pre post : List (Except SearchErr SEntry)) (acc : List SearchResult) (e : SEntry),
      searchGo q [] pre = .ok acc →
      nameMatches q (fileNameOf e.path) = true →
      typePasses q e.path = true →
      e.isFile = true →
      e.meta = none →
      FileSearcher.search q (pre ++ .ok e :: post) = .error .ioError)
    ∧ (∀ (pre post : List (Except SearchErr SEntry)) (acc : List SearchResult)
        (er : SearchErr),
      searchGo q [] pre = .ok acc →
      FileSearcher.search q (pre ++ .error er :: post) = .error er) := by
  constructor
  · intro pre post acc e hpre hname htype hfile hmeta
    unfold FileSearcher.search
    rw [searchGo_append, hpre]
    have hm : matches_criteria q e = .error .ioError := by
      unfold matches_criteria
      rw [hname, hmeta]
      simp [htype, hfile]
    simp only [searchGo, hm]
  · intro pre post acc er hpre
    unfold FileSearcher.search
    rw [searchGo_append, hpre]
    simp [searchGo]

/-- The query of the C3 counterexample and witness: match everything. -/
def c3q : SearchQuery :=
  { pattern := ""
    case_sensitive := false
    search_in_content := false
    file_types := []
    size_min := none
    size_max := none
    modified_after := none
    modified_before := none }

/-- A directory entry that stats fine. -/
def c3good : SEntry :=
  { path := ["root"], isFile := false, meta := some ⟨0, some 0⟩, content := none }

/-- A file entry whose stat fails. -/
def c3bad : SEntry :=
  { path := ["root", "x"], isFile := true, meta := none, content := none }

/-- C3 (counterexample): the walk itself yields no error (the root walk
succeeded; every element is an `ok` entry), only the second entry's stat
fails — yet the whole search returns an error instead of skipping that
entry, refuting the claim. -/
theorem search_stat_failure_cex :
    ([.ok c3good, .ok c3bad] : List (Except SearchErr SEntry)).all
        (fun x => match x with | .ok _ => true | .error _ => false) = true
    ∧ FileSearcher.search c3q [.ok c3good, .ok c3bad] = .error .ioError :=
  ⟨rfl, rfl⟩

/-- Witness for the amended C3 theorem at a concrete walk. -/
theorem search_stat_failure_witness :
    FileSearcher.search c3q ([.ok c3good] ++ .ok c3bad :: []) = .error .ioError :=
  (search_stat_failure_fatal c3q).1 [.ok c3good] [] [⟨["root"], "root", 0, 0, none⟩]
    c3bad rfl rfl rfl rfl rfl



theorem findSub_isPref (s pat : List Char) (pos : Nat) (h : findSub s pat = some pos) :
    isPrefOf pat (s.drop pos) = true := by
  induction s generalizing pos with
  | nil =>
    unfold findSub at h
    by_cases hp : isPrefOf pat [] = true
    · rw [if_pos hp] at h
      injection h with h0
      subst h0
      simpa using hp
    · rw [if_neg hp] at h
      exact Option.noConfusion h
  | cons a rest ih =>
    unfold findSub at h
    by_cases hp : isPrefOf pat (a :: rest) = true
    · rw [if_pos hp] at h
      injection h with h0
      subst h0
      simpa using hp
    · rw [if_neg hp] at h
      cases hf : findSub rest pat with
      | none => rw [hf] at h; simp at h
      | some i =>
        rw [hf] at h
        simp at h
        rw [← h]
        simpa [List.drop_succ_cons] using ih i hf

theorem findSub_least (s pat : List Char) (pos : Nat) (h : findSub s pat = some pos) :
    ∀ j, j < pos → isPrefOf pat (s.drop j) = false := by
  induction s generalizing pos with
  | nil =>
    intro j hj
    unfold findSub at h
    by_cases hp : isPrefOf pat [] = true
    · rw [if_pos hp] at h
      injection h with h0
      subst h0
      exact absurd hj (by omega)
    · rw [if_neg hp] at h
      exact Option.noConfusion h
  | cons a rest ih =>
    intro j hj
    unfold findSub at h
    by_cases hp : isPrefOf pat (a :: rest) = true
    · rw [if_pos hp] at h
      injection h with h0
      subst h0
      exact absurd hj (by omega)
    · rw [if_neg hp] at h
      cases hf : findSub rest pat with
      | none => rw [hf] at h; simp at h
      | some i =>
        rw [hf] at h
        simp at h
        cases j with
        | zero =>
          simp only [List.drop_zero]
          simp at hp
          exact hp
        | succ j2 =>
          have hji : j2 < i := by omega
          simpa [List.drop_succ_cons] using ih i hf j2 hji

/-- C9 (amended): for a content search over a file in the text allow-list
whose content reads successfully and contains the (case-adjusted)
pattern: the match position `pos` is the first occurrence (nothing
earlier matches), and the emitted excerpt is taken from the original
content from 50 characters before the match start to 50 characters after
the match END (`pos + pattern.length + 50`), clamped to the content's
bounds; a read failure yields no content match rather than an error
(last conjunct). -/
theorem content_excerpt_shape (q : SearchQuery) (e : SEntry) (ext : String)
    (c : String) (pos : Nat)
    (hext : extOf (fileNameOf e.path) = some ext)
    (hallow : is_text_file (strToLower ext) = true)
    (hread : e.content = some c)
    (hfind : findSub (if q.case_sensitive then c else strToLower c).toList
        (if q.case_sensitive then q.pattern else strToLower q.pattern).toList
        = some pos) :
    isPrefOf (if q.case_sensitive then q.pattern else strToLower q.pattern).toList
        ((if q.case_sensitive then c else strToLower c).toList.drop pos) = true
    ∧ (∀ j, j < pos →
        isPrefOf (if q.case_sensitive then q.pattern else strToLower q.pattern).toList
          ((if q.case_sensitive then c else strToLower c).toList.drop j) = false)
    ∧ search_in_file_content q e
        = some (String.mk ((c.toList.drop (pos - 50)).take
            (min (pos + (if q.case_sensitive then q.pattern
                else strToLower q.pattern).length + 50) c.length - (pos - 50))))
    ∧ (∀ e2 : SEntry, e2.content = none → search_in_file_content q e2 = none) := by
  refine ⟨findSub_isPref _ _ _ hfind, findSub_least _ _ _ hfind, ?_, ?_⟩
  · unfold search_in_file_content
    rw [hext]
    dsimp only
    rw [if_pos hallow]
    unfold contentScan
    rw [hread]
    have hcontains : strContains (if q.case_sensitive then c else strToLower c)
        (if q.case_sensitive then q.pattern else strToLower q.pattern) = true := by
      unfold strContains
      rw [hfind]
      rfl
    simp only [hcontains, if_true, hfind]
  · intro e2 h2
    have hc : contentScan q e2 = none := by
      unfold contentScan
      rw [h2]
    unfold search_in_file_content
    cases hx : extOf (fileNameOf e2.path) with
    | none => exact hc
    | some x =>
      dsimp only
      by_cases ht : is_text_file (strToLower x) = true
      · rw [if_pos ht]
        exact hc
      · rw [if_neg ht]



/-- The C9 counterexample query: case-sensitive content search for
`"XY"`. -/
def c9q : SearchQuery :=
  { pattern := "XY"
    case_sensitive := true
    search_in_content := true
    file_types := []
    size_min := none
    size_max := none
    modified_after := none
    modified_before := none }

/-- 60 `a`s, the match, 60 `b`s: 122 characters, match start at 60. -/
def c9content : String :=
  String.mk (List.replicate 60 'a') ++ "XY" ++ String.mk (List.replicate 60 'b')

/-- A text file carrying `c9content`. -/
def c9e : SEntry :=
  { path := ["f.txt"], isFile := true, meta := some ⟨122, some 0⟩,
    content := some c9content }

/-- The excerpt the code emits: characters 10 to 111 inclusive. -/
def c9excerpt : String :=
  String.mk (List.replicate 50 'a') ++ "XY" ++ String.mk (List.replicate 50 'b')

set_option maxRecDepth 8192 in
/-- C9 (counterexample): the pattern `"XY"` matches at position 60 of a
122-character file, far from both bounds, so the claimed window — 50
characters before and 50 after the match start — would be exactly 100
characters; the code emits 102 characters (it extends 50 past the match
END, `pos + pattern.len() + 50`), refuting the claim. -/
theorem content_excerpt_cex :
    search_in_file_content c9q c9e = some c9excerpt
    ∧ c9excerpt.length = 102
    ∧ ¬ c9excerpt.length = 100 :=
  ⟨by decide, by decide, by decide⟩

/-- The C9 witness query: case-sensitive content search for `"Z"`. -/
def c9wq : SearchQuery :=
  { pattern := "Z"
    case_sensitive := true
    search_in_content := true
    file_types := []
    size_min := none
    size_max := none
    modified_after := none
    modified_before := none }

/-- A one-character markdown file matching the witness query. -/
def c9we : SEntry :=
  { path := ["n.md"], isFile := true, meta := some ⟨1, some 0⟩, content := some "Z" }

/-- A text file whose read fails. -/
def c9weNone : SEntry :=
  { path := ["u.txt"], isFile := true, meta := some ⟨0, some 0⟩, content := none }

/-- Witness for the amended C9 theorem at concrete inputs: the excerpt
of the one-character match, and the no-match on a read failure. -/
theorem content_excerpt_shape_witness :
    search_in_file_content c9wq c9we = some "Z"
    ∧ search_in_file_content c9wq c9weNone = none :=
  ⟨(content_excerpt_shape c9wq c9we "md" "Z" 0 rfl rfl rfl rfl).2.2.1,
   (content_excerpt_shape c9wq c9we "md" "Z" 0 rfl rfl rfl rfl).2.2.2 c9weNone rfl⟩


end Chex
